import Mathlib

/-!
Verification development for the mata sandbox-orchestration core.

The definitions below are a shallow embedding of the TypeScript sources:
  * `apps/api/src/services/sandbox.service.ts` (`SandboxManager`)
  * `apps/api/src/services/agent.service.ts` (`AgentService`)
  * `apps/api/src/services/sandbox-cleanup.service.ts` (`SandboxCleanupService`)

The relational store (drizzle/postgres) is embedded as explicit in-memory
state (`St`): a SQL `UPDATE ... WHERE` is a `List.map` guarded by the WHERE
predicate, a `findFirst` is `List.find?`, an `INSERT` is an append, and an
`INSERT ... ON CONFLICT (projectId) DO UPDATE` updates the conflicting row.
Store writes themselves are total, matching a reachable database.

The external E2B provider and the in-sandbox agent runtime are embedded as
an oracle (`Provider`): every remote call is a field of the oracle, and a
call that can throw returns `Except String`.  Command executions are keyed
by the command string (the commands issued by the embedded code are
pairwise distinct).  JSON parsing of an agent stdout line is abstracted by
the `Line` sum: a line either parses to a structured event or it does not.
Timestamps carried on events are omitted (no claim mentions them); times in
the store are integer epoch milliseconds.
-/

namespace Mata

/-- Sandbox lifecycle states, from the `sandbox_state` enum in `db/schema.ts`. -/
inductive SandboxState
  | creating
  | running
  | paused
  | terminated
  deriving DecidableEq, Repr

/-- Printable name of a state, used in `InvalidState` error messages. -/
def stateName : SandboxState → String
  | .creating => "creating"
  | .running => "running"
  | .paused => "paused"
  | .terminated => "terminated"

/-- One row of the `sandboxes` table. -/
structure SandboxRow where
  id : String
  projectId : String
  state : SandboxState
  previewUrl : Option String
  agentSessionId : Option String
  lastActiveAt : Int
  deriving DecidableEq, Repr

/-- The `SandboxInfo` interface returned by `SandboxManager` operations. -/
structure SandboxInfo where
  id : String
  projectId : String
  state : SandboxState
  previewUrl : Option String
  agentSessionId : Option String
  lastActiveAt : Int
  deriving DecidableEq, Repr

/-- One row of the `conversations` table (id, project id). -/
structure ConversationRow where
  id : Nat
  projectId : String
  deriving DecidableEq, Repr

/-- Message roles. -/
inductive Role
  | user
  | assistant
  deriving DecidableEq, Repr

/-- Client-visible event type tags (`AgentEventType` in `agent.service.ts`).
`unknown` stands for any parsed JSON value whose `type` field is not one of
the nine protocol tags; `JSON.parse(line) as AgentEvent` performs no
validation, so such events are forwarded unchanged as well. -/
inductive EventType
  | thinking
  | toolCall
  | toolResult
  | message
  | done
  | error
  | sandboxStatus
  | fileChanged
  | terminalOutput
  | unknown
  deriving DecidableEq, Repr

/-- Event payload (`data` field).  The fields cover exactly the projections
the orchestrator reads (`data.content`, `data.sessionId`) and the ones it
writes on its own events; `raw` keeps distinct opaque payloads distinct so
that the accumulated tool-call list is faithful. -/
structure Payload where
  content : Option String := none
  sessionId : Option String := none
  message : Option String := none
  status : Option String := none
  sandboxId : Option String := none
  raw : String := ""
  deriving DecidableEq, Repr

/-- An event as streamed to the client: type tag plus optional payload.
A `none` payload is a JSON `data` that is absent or null (JS-falsy). -/
structure AgentEvent where
  type : EventType
  data : Option Payload := none
  deriving DecidableEq, Repr

/-- One line of the agent process stdout: either it parses as a structured
event or it does not (`JSON.parse` throws). -/
inductive Line
  | malformed (raw : String)
  | event (e : AgentEvent)
  deriving DecidableEq, Repr

/-- One row of the `messages` table. -/
structure MessageRow where
  conversationId : Nat
  role : Role
  content : String
  toolCalls : Option (List Payload)
  deriving DecidableEq, Repr

/-- Result of `SandboxManager.executeCommand`.  `stdoutStr` is the raw
stdout text (used by the `npm list` bootstrap probe); `stdoutLines` is the
same stdout split into newline-delimited lines with JSON parsing
abstracted per line. -/
structure CommandResult where
  stdoutStr : String
  stdoutLines : List Line
  stderr : String
  exitCode : Int
  deriving Repr

/-- Whole durable + in-process state: the relevant store tables, the
process-wide live-handle cache (`activeSandboxes`, keys only — the handle
itself is the remote connection), the in-flight guard map (`activeAgents`,
keys only), the set of projects whose abort controller has been signalled,
the id source for conversation rows, and a counter of provider create
calls used to index the create oracle. -/
structure St where
  projects : List String
  sandboxes : List SandboxRow
  conversations : List ConversationRow
  messages : List MessageRow
  cache : List String
  activeAgents : List String
  abortSignaled : List String
  nextConvId : Nat
  createCalls : Nat
  deriving Repr

/-- Oracle for the external E2B provider and the agent runtime.  Each field
is one remote primitive; `Except String` captures a call that may throw
(the message is the thrown error's message).  A missing `E2B_API_KEY`
(`getApiKey` throwing) is folded into the failure of the call that would
have used it. -/
structure Provider where
  createNew : Nat → Except String String
  connect : String → Except String Unit
  isRunningQ : String → Except String Bool
  betaPause : String → Except String Unit
  kill : String → Except String Unit
  run : String → Except String CommandResult
  writeFileRes : String → Except String Unit

/-- JS `Map.set` on a key set: membership-preserving insert. -/
def mapSet (k : String) (l : List String) : List String :=
  if l.contains k then l else k :: l

/-- JS `Map.delete` on a key set. -/
def mapDelete (k : String) (l : List String) : List String :=
  l.filter (fun x => x != k)

/-- SQL `UPDATE sandboxes SET ... WHERE id = sandboxId`. -/
def updateRowsById (l : List SandboxRow) (sandboxId : String)
    (f : SandboxRow → SandboxRow) : List SandboxRow :=
  l.map fun r => if r.id = sandboxId then f r else r

/-- `SandboxManager.touch`: advance `lastActiveAt`. -/
def touchSandbox (st : St) (sandboxId : String) (now : Int) : St :=
  { st with sandboxes :=
      updateRowsById st.sandboxes sandboxId (fun r => { r with lastActiveAt := now }) }

/-- `SandboxManager.updateAgentSession`. -/
def updateAgentSession (st : St) (sandboxId : String) (sessionId : String) : St :=
  { st with sandboxes :=
      updateRowsById st.sandboxes sandboxId (fun r => { r with agentSessionId := some sessionId }) }

/-- `SandboxManager.getSandboxInstance`: return the cached handle or
connect (and cache) a fresh one. -/
def getSandboxInstance (P : Provider) (st : St) (sandboxId : String) :
    St × Except String Unit :=
  if st.cache.contains sandboxId then (st, .ok ())
  else
    match P.connect sandboxId with
    | .error e => (st, .error e)
    | .ok _ => ({ st with cache := mapSet sandboxId st.cache }, .ok ())

/-- Provisioning tail of `SandboxManager.create`: call the provider's
`Sandbox.create`, cache the handle, then insert the `running` row with
`ON CONFLICT (projectId) DO UPDATE` (the conflict update does not touch
`agentSessionId`, mirroring the source's `set` clause), returning the
written row. -/
def createFresh (P : Provider) (st : St) (projectId : String) (now : Int) :
    St × Except String SandboxInfo :=
  match P.createNew st.createCalls with
  | .error e => ({ st with createCalls := st.createCalls + 1 }, .error e)
  | .ok newId =>
    let st1 : St := { st with createCalls := st.createCalls + 1,
                              cache := mapSet newId st.cache }
    match st1.sandboxes.find? (fun r => r.projectId == projectId) with
    | some ex =>
      let st2 : St := { st1 with sandboxes := st1.sandboxes.map fun r =>
        if r.projectId = projectId then
          { r with id := newId, state := .running, previewUrl := none, lastActiveAt := now }
        else r }
      (st2, .ok ⟨newId, projectId, .running, none, ex.agentSessionId, now⟩)
    | none =>
      let st2 : St := { st1 with sandboxes :=
        st1.sandboxes ++ [⟨newId, projectId, .running, none, none, now⟩] }
      (st2, .ok ⟨newId, projectId, .running, none, none, now⟩)

/-- `SandboxManager.create`: reject a missing project or a live (non
`terminated`) existing sandbox, then provision. -/
def create (P : Provider) (st : St) (projectId : String) (now : Int) :
    St × Except String SandboxInfo :=
  if st.projects.contains projectId = false then (st, .error "Project not found")
  else
    match st.sandboxes.find? (fun r => r.projectId == projectId) with
    | some ex =>
      if ex.state ≠ .terminated then (st, .error "Sandbox already exists for this project")
      else createFresh P st projectId now
    | none => createFresh P st projectId now

/-- `SandboxManager.resume`: requires stored state `paused`; reconnect
(implicitly resuming), cache the handle, set the row `running`. -/
def resume (P : Provider) (st : St) (sandboxId : String) (now : Int) :
    St × Except String SandboxInfo :=
  match st.sandboxes.find? (fun r => r.id == sandboxId) with
  | none => (st, .error "Sandbox not found")
  | some r =>
    if r.state ≠ .paused then
      (st, .error ("Cannot resume sandbox in state: " ++ stateName r.state))
    else
      match P.connect sandboxId with
      | .error e => (st, .error e)
      | .ok _ =>
        let st1 : St := { st with cache := mapSet sandboxId st.cache }
        let st2 : St := { st1 with sandboxes := (updateRowsById st1.sandboxes sandboxId
          (fun r2 => { r2 with state := .running, lastActiveAt := now })) }
        (st2, .ok ⟨r.id, r.projectId, .running, r.previewUrl, r.agentSessionId, now⟩)

/-- `SandboxManager.pause`: requires stored state `running`; provider pause
first, then cache eviction and the durable transition to `paused`.  A
provider failure leaves the row untouched. -/
def pause (P : Provider) (st : St) (sandboxId : String) (now : Int) :
    St × Except String Unit :=
  match st.sandboxes.find? (fun r => r.id == sandboxId) with
  | none => (st, .error "Sandbox not found")
  | some r =>
    if r.state ≠ .running then
      (st, .error ("Cannot pause sandbox in state: " ++ stateName r.state))
    else
      match getSandboxInstance P st sandboxId with
      | (st1, .error e) => (st1, .error e)
      | (st1, .ok _) =>
        match P.betaPause sandboxId with
        | .error e => (st1, .error e)
        | .ok _ =>
          let st2 : St := { st1 with cache := mapDelete sandboxId st1.cache }
          ({ st2 with sandboxes := (updateRowsById st2.sandboxes sandboxId
              (fun r2 => { r2 with state := .paused, lastActiveAt := now })) }, .ok ())

/-- `SandboxManager.terminate`: a missing row is a no-op; the provider kill
is attempted and its failure swallowed (the sandbox may already be gone);
the cache entry is evicted and the row set `terminated` unconditionally.
The operation never throws (total return type). -/
def terminate (P : Provider) (st : St) (sandboxId : String) : St :=
  match st.sandboxes.find? (fun r => r.id == sandboxId) with
  | none => st
  | some _ =>
    let st1 : St :=
      match P.kill sandboxId with
      | .ok _ => st
      | .error _ => st
    let st2 : St := { st1 with cache := mapDelete sandboxId st1.cache }
    { st2 with sandboxes := (updateRowsById st2.sandboxes sandboxId
        (fun r => { r with state := .terminated })) }

/-- `SandboxManager.ensureRunning`: converge on a running sandbox.  Absent
or `terminated` record: `create`.  `paused`: `resume`.  `creating` or
`running`: verify liveness inside a try/catch; a dead sandbox is
terminated and recreated, and any exception in that block (connect
failure, liveness probe failure, or a failure of the recreate itself)
falls to the catch, which calls `create` against the unchanged record. -/
def ensureRunning (P : Provider) (st : St) (projectId : String) (now : Int) :
    St × Except String SandboxInfo :=
  match st.sandboxes.find? (fun r => r.projectId == projectId) with
  | none => create P st projectId now
  | some r =>
    if r.state = .terminated then create P st projectId now
    else if r.state = .paused then resume P st r.id now
    else if r.state = .creating ∨ r.state = .running then
      let attempt : St × Except String SandboxInfo :=
        match getSandboxInstance P st r.id with
        | (st1, .error e) => (st1, .error e)
        | (st1, .ok _) =>
          match P.isRunningQ r.id with
          | .error e => (st1, .error e)
          | .ok false =>
            let st2 := terminate P st1 r.id
            create P st2 projectId now
          | .ok true =>
            let st2 := touchSandbox st1 r.id now
            (st2, .ok ⟨r.id, r.projectId, .running, r.previewUrl, r.agentSessionId, now⟩)
      match attempt with
      | (st1, .ok info) => (st1, .ok info)
      | (st1, .error _) => create P st1 projectId now
    else (st, .error "Unknown sandbox state")

/-- `SandboxManager.executeCommand`: resolve a handle, then run the
command.  The oracle is keyed by the command string; `cwd`, `envs` and
`timeoutMs` do not vary the embedding (the commands issued here are
pairwise distinct strings). -/
def executeCommand (P : Provider) (st : St) (sandboxId : String) (cmd : String) :
    St × Except String CommandResult :=
  match getSandboxInstance P st sandboxId with
  | (st1, .error e) => (st1, .error e)
  | (st1, .ok _) => (st1, P.run cmd)

/-- `SandboxManager.writeFile`. -/
def writeFile (P : Provider) (st : St) (sandboxId path _content : String) :
    St × Except String Unit :=
  match getSandboxInstance P st sandboxId with
  | (st1, .error e) => (st1, .error e)
  | (st1, .ok _) => (st1, P.writeFileRes path)

/-- Stand-in for the `AGENT_WORKER_SCRIPT` constant.  The script body is a
JavaScript program executed by the external agent runtime; its observable
behaviour is already the `run` oracle's stdout, so only its identity as a
written file matters here. -/
def AGENT_WORKER_SCRIPT : String := "agent worker script"

/-- Decides `s.includes pat` (JS `String.prototype.includes`) on the
underlying character lists. -/
def includesAux (pat : List Char) : List Char → Bool
  | [] => pat.isEmpty
  | c :: rest => pat.isPrefixOf (c :: rest) || includesAux pat rest

/-- JS `s.includes(pat)`. -/
def strIncludes (s pat : String) : Bool :=
  includesAux pat.data s.data

/-- The `npm list` bootstrap probe command. -/
def npmCheckCmd : String :=
  "npm list -g @anthropic-ai/claude-agent-sdk 2>/dev/null || echo 'not-installed'"

/-- The global sdk install command. -/
def npmInstallCmd : String := "npm install -g @anthropic-ai/claude-agent-sdk"

/-- `AgentService.initializeSandbox`: create the project and worker
directories, write the worker script, probe the sdk installation and
install it when the probe output contains `not-installed`.  Any failing
step propagates. -/
def initializeSandbox (P : Provider) (st : St) (sandboxId : String) :
    St × Except String Unit :=
  match executeCommand P st sandboxId "mkdir -p /home/user/project" with
  | (st1, .error e) => (st1, .error e)
  | (st1, .ok _) =>
    match executeCommand P st1 sandboxId "mkdir -p /home/user/.agent" with
    | (st2, .error e) => (st2, .error e)
    | (st2, .ok _) =>
      match writeFile P st2 sandboxId "/home/user/.agent/worker.js" AGENT_WORKER_SCRIPT with
      | (st3, .error e) => (st3, .error e)
      | (st3, .ok _) =>
        match executeCommand P st3 sandboxId npmCheckCmd with
        | (st4, .error e) => (st4, .error e)
        | (st4, .ok checkResult) =>
          if strIncludes checkResult.stdoutStr "not-installed" then
            match executeCommand P st4 sandboxId npmInstallCmd with
            | (st5, .error e) => (st5, .error e)
            | (st5, .ok _) => (st5, .ok ())
          else (st4, .ok ())

/-- The single-quote and backslash characters, by code point (used by the
shell-escaping of the user message). -/
def sq : Char := Char.ofNat 39

/-- Backslash. -/
def bs : Char := Char.ofNat 92

/-- `message.replace(/'/g, "'\\''")`. -/
def shellEscape (s : String) : String :=
  ⟨s.data.foldr (fun c acc => if c = sq then sq :: bs :: sq :: sq :: acc else c :: acc) []⟩

/-- The agent invocation command built in `chat`. -/
def agentCommand (message : String) : String :=
  "node /home/user/.agent/worker.js " ++ String.mk [sq] ++ shellEscape message ++ String.mk [sq]

/-- The `sandbox:status {status: starting}` event. -/
def statusStartingEvent : AgentEvent :=
  ⟨.sandboxStatus, some { status := some "starting" }⟩

/-- The `sandbox:status {status: running, sandboxId}` event. -/
def statusRunningEvent (sandboxId : String) : AgentEvent :=
  ⟨.sandboxStatus, some { status := some "running", sandboxId := some sandboxId }⟩

/-- An `agent:error {message}` event. -/
def errEvent (message : String) : AgentEvent :=
  ⟨.error, some { message := some message }⟩

/-- The busy-rejection event yielded when a turn is already in flight. -/
def busyEvent : AgentEvent := errEvent "Agent is already processing a request"

/-- The cancellation notification event yielded when the abort signal is
observed mid-stream. -/
def abortEvent : AgentEvent := errEvent "Agent execution was stopped"

/-- JS `x || null` on an optional string: an absent or empty session id
collapses to null. -/
def jsOrNull : Option String → Option String
  | some s => if s = "" then none else some s
  | none => none

/-- Accumulator threaded through the stdout line loop: the events
re-emitted to the client so far, the concatenated assistant text, the
ordered tool-call payloads, and the session id taken from the last
`agent:done` seen. -/
structure Accum where
  events : List AgentEvent
  content : String
  toolCalls : List Payload
  newSessionId : Option String
  deriving DecidableEq, Repr

/-- Empty accumulator. -/
def Accum.ini : Accum := ⟨[], "", [], none⟩

/-- Per-event body of the line loop: re-yield the parsed event, then
collect text content (when the event carries a truthy `data`), tool-call
payloads, and the done event's session id. -/
def stepEvent (acc : Accum) (e : AgentEvent) : Accum :=
  let acc1 : Accum := { acc with events := acc.events ++ [e] }
  let acc2 : Accum :=
    if e.type = .message then
      match e.data with
      | some d => { acc1 with content := acc1.content ++ d.content.getD "" }
      | none => acc1
    else acc1
  let acc3 : Accum :=
    if e.type = .toolCall then
      match e.data with
      | some d => { acc2 with toolCalls := acc2.toolCalls ++ [d] }
      | none => acc2
    else acc2
  if e.type = .done then
    match e.data with
    | some d => { acc3 with newSessionId := jsOrNull d.sessionId }
    | none => acc3
  else acc3

/-- The stdout line loop of `chat`: before each line the abort signal is
checked (yield the cancellation event and break); a malformed line is
logged and skipped; a parsed event is processed by `stepEvent`.
`abortAt i` is the value of `controller.signal.aborted` observed at the
i-th iteration. -/
def processLines (abortAt : Nat → Bool) : Nat → List Line → Accum → Accum
  | _, [], acc => acc
  | i, l :: rest, acc =>
    if abortAt i then { acc with events := acc.events ++ [abortEvent] }
    else
      match l with
      | .malformed _ => processLines abortAt (i + 1) rest acc
      | .event e => processLines abortAt (i + 1) rest (stepEvent acc e)

/-- Steps of a turn, recorded in order, used to state ordering properties
of the turn protocol. -/
inductive Action
  | ensureRunningCall
  | initSandboxCall
  | findConversation
  | insertConversation
  | insertUserMessage
  | querySandboxRecord
  | execAgentCommand
  | insertAssistantMessage
  | updateSessionId
  | touchCall
  deriving DecidableEq, Repr

/-- Output of the body of one turn: the events yielded so far, the ordered
step trace, the resulting state, and the exception escaping the body (if
any) to be turned into a terminal error event by the catch. -/
structure ChatOut where
  events : List AgentEvent
  trace : List Action
  st : St
  err : Option String
  deriving Repr

/-- Tail of one turn, from the agent invocation onwards: invoke the agent
command, replay/accumulate its stdout events, append the stderr-derived
error when the command exited nonzero with stderr output, persist the
assistant message when anything was accumulated, store a returned session
id, and touch the sandbox.  `ev1`/`trPre` are the events and steps
produced by the earlier part of the turn. -/
def chatTail (P : Provider) (st4 : St) (sandboxId : String) (convId : Nat)
    (message : String) (abortAt : Nat → Bool) (now : Int)
    (ev1 : List AgentEvent) (trPre : List Action) : ChatOut :=
  match executeCommand P st4 sandboxId (agentCommand message) with
  | (st5, .error e) => ⟨ev1, trPre ++ [.execAgentCommand], st5, some e⟩
  | (st5, .ok res) =>
    let acc := processLines abortAt 0 res.stdoutLines Accum.ini
    let ev2 : List AgentEvent := ev1 ++ acc.events
    let ev3 : List AgentEvent :=
      if res.stderr ≠ "" ∧ res.exitCode ≠ 0 then ev2 ++ [errEvent res.stderr] else ev2
    let persist := acc.content ≠ "" ∨ acc.toolCalls ≠ []
    let st6 : St :=
      if persist then
        { st5 with messages := st5.messages ++
            [⟨convId, .assistant,
              (if acc.content ≠ "" then acc.content else "(Tool calls only)"),
              (if acc.toolCalls ≠ [] then some acc.toolCalls else none)⟩] }
      else st5
    let trA : List Action := if persist then [.insertAssistantMessage] else []
    let st7 : St :=
      match acc.newSessionId with
      | some s => updateAgentSession st6 sandboxId s
      | none => st6
    let trB : List Action :=
      match acc.newSessionId with
      | some _ => [.updateSessionId]
      | none => []
    let st8 := touchSandbox st7 sandboxId now
    ⟨ev3, trPre ++ [.execAgentCommand] ++ trA ++ trB ++ [.touchCall], st8, none⟩

/-- Body of `AgentService.chat` (the try block): status event, ensure a
running sandbox, status event, bootstrap, find-or-create the conversation,
persist the user message, read the stored session id, then `chatTail`. -/
def chatBody (P : Provider) (st : St) (projectId _userId message : String)
    (abortAt : Nat → Bool) (now : Int) : ChatOut :=
  let ev0 : List AgentEvent := [statusStartingEvent]
  match ensureRunning P st projectId now with
  | (st1, .error e) => ⟨ev0, [.ensureRunningCall], st1, some e⟩
  | (st1, .ok info) =>
    let ev1 : List AgentEvent := ev0 ++ [statusRunningEvent info.id]
    match initializeSandbox P st1 info.id with
    | (st2, .error e) => ⟨ev1, [.ensureRunningCall, .initSandboxCall], st2, some e⟩
    | (st2, .ok _) =>
      let convFound := st2.conversations.find? (fun c => c.projectId == projectId)
      let convId : Nat :=
        match convFound with
        | some c => c.id
        | none => st2.nextConvId
      let st3 : St :=
        match convFound with
        | some _ => st2
        | none =>
          { st2 with conversations := st2.conversations ++ [⟨st2.nextConvId, projectId⟩],
                     nextConvId := st2.nextConvId + 1 }
      let trConv : List Action :=
        match convFound with
        | some _ => [.findConversation]
        | none => [.findConversation, .insertConversation]
      let st4 : St := { st3 with messages := st3.messages ++ [⟨convId, .user, message, none⟩] }
      -- stored session id, read into the worker environment
      let _sessionId : String :=
        ((st4.sandboxes.find? (fun r => r.id == info.id)).bind (fun r => r.agentSessionId)).getD ""
      let trPre : List Action :=
        [.ensureRunningCall, .initSandboxCall] ++ trConv ++
          [.insertUserMessage, .querySandboxRecord]
      chatTail P st4 info.id convId message abortAt now ev1 trPre

/-- `AgentService.isAgentRunning`. -/
def isAgentRunning (st : St) (projectId : String) : Bool :=
  st.activeAgents.contains projectId

/-- `AgentService.chat`: reject with a single busy error when a turn is in
flight for the project; otherwise register the project, run the turn body,
turn an escaping exception into a trailing error event (the catch), and
unconditionally deregister the project (the finally). -/
def chat (P : Provider) (st : St) (projectId userId message : String)
    (abortAt : Nat → Bool) (now : Int) : List AgentEvent × List Action × St :=
  if isAgentRunning st projectId then ([busyEvent], [], st)
  else
    let stR : St := { st with activeAgents := mapSet projectId st.activeAgents }
    let out := chatBody P stR projectId userId message abortAt now
    let evs : List AgentEvent :=
      match out.err with
      | some m => out.events ++ [errEvent m]
      | none => out.events
    (evs, out.trace, { out.st with activeAgents := mapDelete projectId out.st.activeAgents })

/-- `AgentService.stopAgent`: when an in-flight entry exists, abort its
controller, drop the entry, and report `true`; otherwise report `false`.
The in-flight generator observes the aborted controller through the
`abortAt` oracle of its own `chat` run. -/
def stopAgent (st : St) (projectId : String) : Bool × St :=
  if st.activeAgents.contains projectId then
    (true, { st with abortSignaled := mapSet projectId st.abortSignaled,
                     activeAgents := mapDelete projectId st.activeAgents })
  else (false, st)

/-- One step of the idle-pause sweep: pause the sandbox, swallowing a
failure (logged and skipped in the source), and record the attempt. -/
def pauseStep (P : Provider) (now : Int) (acc : St × List String) (r : SandboxRow) :
    St × List String :=
  ((pause P acc.1 r.id now).1, acc.2 ++ [r.id])

/-- `SandboxCleanupService.pauseIdleSandboxes`: query the `running` rows
with `lastActiveAt` strictly before `now - idleMs` and pause each,
isolating failures.  The returned list records, in order, the sandbox ids
passed to `pause`. -/
def pauseIdleSandboxes (P : Provider) (st : St) (now idleMs : Int) :
    St × List String :=
  let idle := st.sandboxes.filter fun r =>
    r.state == .running && decide (r.lastActiveAt < now - idleMs)
  idle.foldl (pauseStep P now) (st, [])

/-- One step of the hibernation sweep: terminate and record the attempt
(`terminate` is total, so the source's catch has nothing to swallow here
beyond provider errors already absorbed inside `terminate`). -/
def terminateStep (P : Provider) (acc : St × List String) (r : SandboxRow) :
    St × List String :=
  (terminate P acc.1 r.id, acc.2 ++ [r.id])

/-- `SandboxCleanupService.terminateHibernatingSandboxes`: query the
`paused` rows with `lastActiveAt` strictly before `now - hibMs` and
terminate each.  The returned list records the ids passed to
`terminate`. -/
def terminateHibernatingSandboxes (P : Provider) (st : St) (now hibMs : Int) :
    St × List String :=
  let hib := st.sandboxes.filter fun r =>
    r.state == .paused && decide (r.lastActiveAt < now - hibMs)
  hib.foldl (terminateStep P) (st, [])

/-- `SandboxCleanupService.runCleanup`: one cycle = the idle-pause sweep
followed by the hibernation-terminate sweep, both against the same `now`.
The result carries the ids passed to `pause` and to `terminate`. -/
def runCleanup (P : Provider) (st : St) (now idleMs hibMs : Int) :
    St × List String × List String :=
  let (st1, pausedIds) := pauseIdleSandboxes P st now idleMs
  let (st2, termIds) := terminateHibernatingSandboxes P st1 now hibMs
  (st2, pausedIds, termIds)

/-- Projection of the state components the sandbox-lifecycle layer never
writes: the in-flight guard, the conversations, the messages, and the
conversation id source. -/
def dbView (st : St) : List String × List ConversationRow × List MessageRow × Nat :=
  (st.activeAgents, st.conversations, st.messages, st.nextConvId)

/-- A store with one project whose sandbox is live and cached: the common
starting point of the concrete turn scenarios. -/
def sb1 : SandboxRow := ⟨"sbx1", "p1", .running, none, none, 0⟩

/-- Concrete store for turn scenarios. -/
def st0 : St := ⟨["p1"], [sb1], [], [], ["sbx1"], [], [], 0, 0⟩

/-- Same store with a turn already in flight for the project. -/
def stBusy : St := ⟨["p1"], [sb1], [], [], ["sbx1"], ["p1"], [], 0, 0⟩

/-- A cooperative provider for turn scenarios: every lifecycle call
succeeds, the bootstrap probe reports the sdk installed, and the agent
invocation returns the given stdout lines, stderr and exit code. -/
def happyP (lines : List Line) (stderrS : String) (exitC : Int) : Provider :=
  ⟨fun _ => .error "create unused",
   fun _ => .ok (),
   fun _ => .ok true,
   fun _ => .ok (),
   fun _ => .ok (),
   fun cmd =>
     if cmd = agentCommand "hi" then .ok ⟨"", lines, stderrS, exitC⟩
     else .ok ⟨"", [], "", 0⟩,
   fun _ => .ok ()⟩

/-- The parsed events of the agent stdout: the well-formed lines, in their
original order. -/
def wellFormedEvents (lines : List Line) : List AgentEvent :=
  lines.filterMap fun l =>
    match l with
    | .malformed _ => none
    | .event e => some e

/-- Concatenation of the text carried by the `agent:message` events of a
sequence (an absent payload or content contributes nothing). -/
def accText : List AgentEvent → String
  | [] => ""
  | e :: rest =>
    (if e.type = .message then
      match e.data with
      | some d => d.content.getD ""
      | none => ""
    else "") ++ accText rest

/-- The ordered payloads of the `agent:tool_call` events of a sequence. -/
def toolPayloads : List AgentEvent → List Payload
  | [] => []
  | e :: rest =>
    (if e.type = .toolCall then
      match e.data with
      | some d => [d]
      | none => []
    else []) ++ toolPayloads rest

/-- The session id carried by the last `agent:done` event of a sequence
(collapsing empty ids to null), starting from `cur`. -/
def lastSessionFrom (cur : Option String) : List AgentEvent → Option String
  | [] => cur
  | e :: rest =>
    lastSessionFrom
      (if e.type = .done then
        match e.data with
        | some d => jsOrNull d.sessionId
        | none => cur
      else cur) rest

/-- Terminal events of the wire protocol: `agent:done` and `agent:error`. -/
def isTerminal (e : AgentEvent) : Bool :=
  e.type == .done || e.type == .error

/-- An `agent:done {sessionId}` event. -/
def doneEvent (s : String) : AgentEvent := ⟨.done, some { sessionId := some s }⟩

/-- An `agent:message {content}` event. -/
def textEvent (c : String) : AgentEvent := ⟨.message, some { content := some c }⟩

/-- An `agent:tool_call` event with an opaque payload. -/
def toolEvent (r : String) : AgentEvent := ⟨.toolCall, some { raw := r }⟩

/-- The spec scenario stream: two tool calls, one text chunk, one
`turn-complete`. -/
def scnLines : List Line :=
  [.event (toolEvent "t1"), .event (toolEvent "t2"),
   .event (textEvent "Hello"), .event (doneEvent "sess-9")]

/-- Five well-formed event lines with one malformed line amid them. -/
def fiveLines : List Line :=
  [.event ⟨.thinking, none⟩, .event (toolEvent "t1"), .malformed "oops",
   .event (textEvent "a"), .event (toolEvent "t2"), .event (doneEvent "s5")]

/-- Reduced form of the final state of a happy turn on `st0` as a function
of the stdout accumulator: definitionally equal to what the `chat`
pipeline produces there. -/
def happyFinal (now : Int) (A : Accum) : St :=
  let st4 : St := ⟨["p1"], [⟨"sbx1", "p1", .running, none, none, now⟩], [⟨0, "p1"⟩],
    [⟨0, .user, "hi", none⟩], ["sbx1"], ["p1"], [], 1, 0⟩
  let st6 : St :=
    if A.content ≠ "" ∨ A.toolCalls ≠ [] then
      { st4 with messages := st4.messages ++
          [⟨0, .assistant,
            (if A.content ≠ "" then A.content else "(Tool calls only)"),
            (if A.toolCalls ≠ [] then some A.toolCalls else none)⟩] }
    else st4
  let st7 : St :=
    match A.newSessionId with
    | some s => updateAgentSession st6 "sbx1" s
    | none => st6
  let st8 := touchSandbox st7 "sbx1" now
  { st8 with activeAgents := mapDelete "p1" st8.activeAgents }

/-! ## Helper lemmas -/

theorem mapDelete_not_mem (k : String) (l : List String) :
    (mapDelete k l).contains k = false := by
  simp only [mapDelete]
  induction l with
  | nil => rfl
  | cons x xs ih =>
    simp only [List.filter_cons]
    by_cases hx : (x != k) = true
    · rw [if_pos hx]
      have hne : x ≠ k := bne_iff_ne.mp hx
      have hkx : (k == x) = false := beq_eq_false_iff_ne.mpr (Ne.symm hne)
      rw [List.contains_cons, hkx, Bool.false_or]
      exact ih
    · rw [if_neg hx]
      exact ih

theorem mapDelete_idem (k : String) (l : List String) :
    mapDelete k (mapDelete k l) = mapDelete k l := by
  simp only [mapDelete, List.filter_filter]
  congr 1
  funext x
  exact Bool.and_self _

theorem updateRowsById_comp (l : List SandboxRow) (sandboxId : String)
    (f g : SandboxRow → SandboxRow) (hf : ∀ r, (f r).id = r.id) :
    updateRowsById (updateRowsById l sandboxId f) sandboxId g =
      updateRowsById l sandboxId (fun r => g (f r)) := by
  induction l with
  | nil => rfl
  | cons x xs ih =>
    simp only [updateRowsById, List.map_cons] at ih ⊢
    refine congrArg₂ List.cons ?_ ih
    by_cases hx : x.id = sandboxId
    · simp [hx, hf]
    · simp [hx]

theorem find?_updateRowsById_self (l : List SandboxRow) (sandboxId : String)
    (f : SandboxRow → SandboxRow) (hf : ∀ r, (f r).id = r.id) :
    (updateRowsById l sandboxId f).find? (fun r => r.id == sandboxId) =
      (l.find? (fun r => r.id == sandboxId)).map f := by
  induction l with
  | nil => rfl
  | cons x xs ih =>
    simp only [updateRowsById, List.map_cons] at ih ⊢
    by_cases hx : x.id = sandboxId
    · rw [if_pos hx]
      rw [List.find?_cons_of_pos _ (by simp [hf, hx]),
        List.find?_cons_of_pos _ (by simp [hx])]
      simp
    · rw [if_neg hx]
      rw [List.find?_cons_of_neg _ (by simp [hx]),
        List.find?_cons_of_neg _ (by simp [hx])]
      exact ih

theorem find?_updateRowsById_ne (l : List SandboxRow) (tid rid : String)
    (f : SandboxRow → SandboxRow) (hf : ∀ r, (f r).id = r.id) (hne : tid ≠ rid) :
    (updateRowsById l tid f).find? (fun r => r.id == rid) =
      l.find? (fun r => r.id == rid) := by
  induction l with
  | nil => rfl
  | cons x xs ih =>
    simp only [updateRowsById, List.map_cons] at ih ⊢
    by_cases hx : x.id = tid
    · have hxr : ¬ x.id = rid := by
        rw [hx]
        exact hne
      rw [if_pos hx]
      rw [List.find?_cons_of_neg _ (by simp [hf, hx, hne]),
        List.find?_cons_of_neg _ (by simp [hxr])]
      exact ih
    · rw [if_neg hx]
      by_cases hxr : x.id = rid
      · rw [List.find?_cons_of_pos _ (by simp [hxr]),
          List.find?_cons_of_pos _ (by simp [hxr])]
      · rw [List.find?_cons_of_neg _ (by simp [hxr]),
          List.find?_cons_of_neg _ (by simp [hxr])]
        exact ih

theorem getSandboxInstance_sandboxes (P : Provider) (st : St) (sandboxId : String) :
    ((getSandboxInstance P st sandboxId).1).sandboxes = st.sandboxes := by
  unfold getSandboxInstance
  split
  · rfl
  · split <;> rfl

/-! ## C9: terminate is idempotent -/

/-- C9.  `terminate` is idempotent: a missing record is a no-op, every row
with the terminated id ends in state `terminated`, and a second call
(against any provider behaviour, including a failing `kill`) leaves the
state unchanged. -/
theorem terminate_idempotent (P : Provider) (st : St) (sandboxId : String) :
    (st.sandboxes.find? (fun r => r.id == sandboxId) = none →
      terminate P st sandboxId = st)
    ∧ (∀ r, r ∈ (terminate P st sandboxId).sandboxes → r.id = sandboxId →
        r.state = .terminated)
    ∧ terminate P (terminate P st sandboxId) sandboxId = terminate P st sandboxId := by
  refine ⟨?_, ?_, ?_⟩
  · intro hnone
    unfold terminate
    rw [hnone]
  · intro r hr hid
    unfold terminate at hr
    rcases hf : st.sandboxes.find? (fun r0 => r0.id == sandboxId) with _ | r0
    · rw [hf] at hr
      have := List.find?_eq_none.mp hf r hr
      simp [hid] at this
    · rw [hf] at hr
      rcases hk : P.kill sandboxId with e | u <;> rw [hk] at hr <;>
        · simp only [updateRowsById, List.mem_map] at hr
          obtain ⟨r1, _, hr1⟩ := hr
          by_cases h1 : r1.id = sandboxId
          · simp [h1] at hr1
            rw [← hr1]
          · simp [h1] at hr1
            rw [← hr1] at hid
            exact absurd hid h1
  · rcases hf : st.sandboxes.find? (fun r0 => r0.id == sandboxId) with _ | r0
    · have h0 : terminate P st sandboxId = st := by
        unfold terminate
        rw [hf]
      rw [h0]
      exact h0
    · have h0 : terminate P st sandboxId =
          { st with cache := mapDelete sandboxId st.cache,
                    sandboxes := (updateRowsById st.sandboxes sandboxId
                      (fun r => { r with state := .terminated })) } := by
        unfold terminate
        rw [hf]
        rcases hk : P.kill sandboxId with e | u <;> rfl
      rw [h0]
      unfold terminate
      have hfind : List.find? (fun r => r.id == sandboxId)
          (updateRowsById st.sandboxes sandboxId
            (fun r => { r with state := SandboxState.terminated })) =
          some { r0 with state := .terminated } := by
        rw [find?_updateRowsById_self st.sandboxes sandboxId
          (fun r => { r with state := SandboxState.terminated }) (fun r => rfl), hf]
        rfl
      simp only [hfind]
      have hupd : updateRowsById
          (updateRowsById st.sandboxes sandboxId
            (fun r => { r with state := SandboxState.terminated })) sandboxId
          (fun r => { r with state := SandboxState.terminated }) =
          updateRowsById st.sandboxes sandboxId
            (fun r => { r with state := SandboxState.terminated }) := by
        rw [updateRowsById_comp st.sandboxes sandboxId
          (fun r => { r with state := SandboxState.terminated })
          (fun r => { r with state := SandboxState.terminated }) (fun r => rfl)]
      rcases hk : P.kill sandboxId with e | u <;>
        simp [mapDelete_idem, hupd]

/-- Witness for C9 at a concrete store: one running sandbox, a provider
whose kill fails ("already gone"), two successive terminations. -/
theorem terminate_idempotent_witness :
    (∀ r, r ∈ (terminate
        ⟨fun _ => .error "x", fun _ => .ok (), fun _ => .ok true, fun _ => .ok (),
         fun _ => .error "sandbox already gone", fun _ => .error "x", fun _ => .ok ()⟩
        ⟨["p1"], [⟨"sbx1", "p1", .running, none, none, 0⟩], [], [], ["sbx1"], [], [], 0, 0⟩
        "sbx1").sandboxes → r.id = "sbx1" → r.state = .terminated)
    ∧ terminate
        ⟨fun _ => .error "x", fun _ => .ok (), fun _ => .ok true, fun _ => .ok (),
         fun _ => .error "sandbox already gone", fun _ => .error "x", fun _ => .ok ()⟩
        (terminate
          ⟨fun _ => .error "x", fun _ => .ok (), fun _ => .ok true, fun _ => .ok (),
           fun _ => .error "sandbox already gone", fun _ => .error "x", fun _ => .ok ()⟩
          ⟨["p1"], [⟨"sbx1", "p1", .running, none, none, 0⟩], [], [], ["sbx1"], [], [], 0, 0⟩
          "sbx1") "sbx1" =
      terminate
        ⟨fun _ => .error "x", fun _ => .ok (), fun _ => .ok true, fun _ => .ok (),
         fun _ => .error "sandbox already gone", fun _ => .error "x", fun _ => .ok ()⟩
        ⟨["p1"], [⟨"sbx1", "p1", .running, none, none, 0⟩], [], [], ["sbx1"], [], [], 0, 0⟩
        "sbx1" := by
  refine ⟨(terminate_idempotent _ _ _).2.1, (terminate_idempotent _ _ _).2.2⟩

/-! ## C8: pause requires a running record and never transitions optimistically -/

/-- C8.  `pause` succeeds only from stored state `running` (unknown ids and
other states fail), every failure — including a provider pause failure —
leaves the stored rows (hence `lastActiveAt`) unchanged, and success
implies the provider pause succeeded and exactly the target row moved to
`paused` with its activity time touched. -/
theorem pause_requires_running (P : Provider) (st : St) (sandboxId : String) (now : Int) :
    (st.sandboxes.find? (fun r => r.id == sandboxId) = none →
      (pause P st sandboxId now).2.isOk = false)
    ∧ (∀ r, st.sandboxes.find? (fun r0 => r0.id == sandboxId) = some r →
        r.state ≠ .running → (pause P st sandboxId now).2.isOk = false)
    ∧ (∀ e, (pause P st sandboxId now).2 = .error e →
        (pause P st sandboxId now).1.sandboxes = st.sandboxes)
    ∧ ((pause P st sandboxId now).2 = .ok () →
        ∃ r, st.sandboxes.find? (fun r0 => r0.id == sandboxId) = some r ∧
          r.state = .running ∧ P.betaPause sandboxId = .ok () ∧
          (pause P st sandboxId now).1.sandboxes = (updateRowsById st.sandboxes sandboxId
            (fun r2 => { r2 with state := .paused, lastActiveAt := now }))) := by
  rcases hf : st.sandboxes.find? (fun r0 => r0.id == sandboxId) with _ | r
  · have hbody : pause P st sandboxId now = (st, .error "Sandbox not found") := by
      unfold pause
      simp only [hf]
    refine ⟨fun _ => ?_, fun r hr => ?_, fun e he => ?_, fun hok => ?_⟩
    · rw [hbody]
      rfl
    · rw [hf] at hr
      exact absurd hr (by simp)
    · rw [hbody]
    · rw [hbody] at hok
      exact absurd hok (by simp)
  · by_cases hs : r.state = .running
    · have hbody : pause P st sandboxId now =
          (match getSandboxInstance P st sandboxId with
          | (st1, .error e) => (st1, .error e)
          | (st1, .ok _) =>
            match P.betaPause sandboxId with
            | .error e => (st1, .error e)
            | .ok _ =>
              let st2 : St := { st1 with cache := mapDelete sandboxId st1.cache }
              ({ st2 with sandboxes := (updateRowsById st2.sandboxes sandboxId
                  (fun r2 => { r2 with state := .paused, lastActiveAt := now })) }, .ok ())) := by
        unfold pause
        simp only [hf]
        rw [if_neg (by simp [hs])]
      rcases hg : getSandboxInstance P st sandboxId with ⟨st1, rg⟩
      have hs1 : st1.sandboxes = st.sandboxes := by
        have h1 := getSandboxInstance_sandboxes P st sandboxId
        rw [hg] at h1
        exact h1
      rw [hg] at hbody
      rcases rg with e0 | u0
      · refine ⟨fun hnone => ?_, fun r2 hr2 hne => ?_, fun e he => ?_, fun hok => ?_⟩
        · rw [hf] at hnone
          exact absurd hnone (by simp)
        · rw [hf] at hr2
          cases hr2
          exact absurd hs hne
        · rw [hbody]
          exact hs1
        · rw [hbody] at hok
          exact absurd hok (by simp)
      · cases u0
        rcases hb : P.betaPause sandboxId with e1 | u1
        · rw [hb] at hbody
          refine ⟨fun hnone => ?_, fun r2 hr2 hne => ?_, fun e he => ?_, fun hok => ?_⟩
          · rw [hf] at hnone
            exact absurd hnone (by simp)
          · rw [hf] at hr2
            cases hr2
            exact absurd hs hne
          · rw [hbody]
            exact hs1
          · rw [hbody] at hok
            exact absurd hok (by simp)
        · cases u1
          rw [hb] at hbody
          refine ⟨fun hnone => ?_, fun r2 hr2 hne => ?_, fun e he => ?_, fun hok => ?_⟩
          · rw [hf] at hnone
            exact absurd hnone (by simp)
          · rw [hf] at hr2
            cases hr2
            exact absurd hs hne
          · rw [hbody] at he
            exact absurd he (by simp)
          · refine ⟨r, hf, hs, ?_, ?_⟩
            · rfl
            · rw [hbody]
              simp [hs1]
    · have hbody : pause P st sandboxId now =
          (st, .error ("Cannot pause sandbox in state: " ++ stateName r.state)) := by
        unfold pause
        simp only [hf]
        rw [if_pos (by simp [hs])]
      refine ⟨fun hnone => ?_, fun r2 hr2 hne => ?_, fun e he => ?_, fun hok => ?_⟩
      · rw [hf] at hnone
        exact absurd hnone (by simp)
      · rw [hbody]
        rfl
      · rw [hbody]
      · rw [hbody] at hok
        exact absurd hok (by simp)

/-- Witness for C8 at concrete inputs: an id-less store fails; a paused
record fails; a provider whose pause throws leaves a running record
untouched; a cooperative provider pauses the row. -/
theorem pause_requires_running_witness :
    ((pause
        ⟨fun _ => .error "x", fun _ => .ok (), fun _ => .ok true, fun _ => .error "boom",
         fun _ => .ok (), fun _ => .error "x", fun _ => .ok ()⟩
        ⟨["p1"], [⟨"sbx1", "p1", .running, none, none, 3⟩], [], [], ["sbx1"], [], [], 0, 0⟩
        "sbx1" 9).2 = .error "boom" →
      (pause
        ⟨fun _ => .error "x", fun _ => .ok (), fun _ => .ok true, fun _ => .error "boom",
         fun _ => .ok (), fun _ => .error "x", fun _ => .ok ()⟩
        ⟨["p1"], [⟨"sbx1", "p1", .running, none, none, 3⟩], [], [], ["sbx1"], [], [], 0, 0⟩
        "sbx1" 9).1.sandboxes = [⟨"sbx1", "p1", .running, none, none, 3⟩])
    ∧ (pause
        ⟨fun _ => .error "x", fun _ => .ok (), fun _ => .ok true, fun _ => .error "boom",
         fun _ => .ok (), fun _ => .error "x", fun _ => .ok ()⟩
        ⟨["p1"], [⟨"sbx1", "p1", .running, none, none, 3⟩], [], [], ["sbx1"], [], [], 0, 0⟩
        "sbx1" 9).2 = .error "boom" := by
  constructor
  · intro he
    exact (pause_requires_running _ _ _ _).2.2.1 "boom" he
  · rfl

/-! ## Helper lemmas about the chat event stream head -/

theorem chatTail_events_cons (P : Provider) (st4 : St) (sandboxId : String) (convId : Nat)
    (message : String) (abortAt : Nat → Bool) (now : Int) (a b : AgentEvent)
    (trPre : List Action) :
    ∃ rest, (chatTail P st4 sandboxId convId message abortAt now ([a] ++ [b]) trPre).events =
      a :: rest := by
  unfold chatTail
  repeat' (first | split | (dsimp only; split))
  all_goals exact ⟨_, rfl⟩

theorem chatBody_events_cons (P : Provider) (st : St) (projectId userId message : String)
    (abortAt : Nat → Bool) (now : Int) :
    ∃ rest, (chatBody P st projectId userId message abortAt now).events =
      statusStartingEvent :: rest := by
  unfold chatBody
  rcases hE : ensureRunning P st projectId now with ⟨st1, rE⟩
  rcases rE with e | info
  · exact ⟨[], rfl⟩
  · dsimp only
    rcases hI : initializeSandbox P st1 info.id with ⟨st2, rI⟩
    rcases rI with e | u
    · exact ⟨[statusRunningEvent info.id], rfl⟩
    · dsimp only
      rcases hC : st2.conversations.find? (fun c => c.projectId == projectId) with _ | c <;>
        exact chatTail_events_cons P _ _ _ _ _ _ _ _ _

theorem chat_head_of_not_running (P : Provider) (st : St)
    (projectId userId message : String) (abortAt : Nat → Bool) (now : Int)
    (h : isAgentRunning st projectId = false) :
    ((chat P st projectId userId message abortAt now).1).head? =
      some statusStartingEvent := by
  obtain ⟨rest, hrest⟩ := chatBody_events_cons P
    { st with activeAgents := mapSet projectId st.activeAgents }
    projectId userId message abortAt now
  unfold chat
  rw [h]
  rcases herr : (chatBody P { st with activeAgents := mapSet projectId st.activeAgents }
      projectId userId message abortAt now).err with _ | m <;>
    simp [herr, hrest]

/-! ## Frame lemmas: the lifecycle operations never touch the guard set,
the conversations, the messages, or the conversation id source -/

theorem getSandboxInstance_dbView (P : Provider) (st : St) (sandboxId : String) :
    dbView (getSandboxInstance P st sandboxId).1 = dbView st := by
  unfold getSandboxInstance
  split
  · rfl
  · split <;> rfl

theorem createFresh_dbView (P : Provider) (st : St) (projectId : String) (now : Int) :
    dbView (createFresh P st projectId now).1 = dbView st := by
  unfold createFresh
  split
  · rfl
  · dsimp only
    split <;> rfl

theorem create_dbView (P : Provider) (st : St) (projectId : String) (now : Int) :
    dbView (create P st projectId now).1 = dbView st := by
  unfold create
  split
  · rfl
  · split
    · split
      · rfl
      · exact createFresh_dbView P st projectId now
    · exact createFresh_dbView P st projectId now

theorem resume_dbView (P : Provider) (st : St) (sandboxId : String) (now : Int) :
    dbView (resume P st sandboxId now).1 = dbView st := by
  unfold resume
  split
  · rfl
  · split
    · rfl
    · split <;> rfl

theorem terminate_dbView (P : Provider) (st : St) (sandboxId : String) :
    dbView (terminate P st sandboxId) = dbView st := by
  unfold terminate
  split
  · rfl
  · split <;> rfl

theorem touchSandbox_dbView (st : St) (sandboxId : String) (now : Int) :
    dbView (touchSandbox st sandboxId now) = dbView st := rfl

theorem ensureRunning_dbView (P : Provider) (st : St) (projectId : String) (now : Int) :
    dbView (ensureRunning P st projectId now).1 = dbView st := by
  rcases hf : st.sandboxes.find? (fun r => r.projectId == projectId) with _ | r
  · unfold ensureRunning
    simp only [hf]
    exact create_dbView P st projectId now
  · rcases hg : getSandboxInstance P st r.id with ⟨st1, rg⟩
    have hg1 : dbView st1 = dbView st := by
      have h1 := getSandboxInstance_dbView P st r.id
      rw [hg] at h1
      exact h1
    rcases hcr : create P (terminate P st1 r.id) projectId now with ⟨st2, rc⟩
    have h2 : dbView st2 = dbView st := by
      have h3 := create_dbView P (terminate P st1 r.id) projectId now
      rw [hcr] at h3
      exact h3.trans ((terminate_dbView P st1 r.id).trans hg1)
    unfold ensureRunning
    simp only [hf, hg]
    rcases hrs : r.state with _ | _ | _ | _
    all_goals simp only [hrs]
    case paused => exact resume_dbView P st r.id now
    case terminated => exact create_dbView P st projectId now
    all_goals {
      rcases rg with e | u
      · exact (create_dbView P st1 projectId now).trans hg1
      · rcases hq : P.isRunningQ r.id with e | b
        · simp only [hq]
          exact (create_dbView P st1 projectId now).trans hg1
        · cases b
          · simp only [hq]
            rw [hcr]
            rcases rc with e | info
            · exact (create_dbView P st2 projectId now).trans h2
            · exact h2
          · simp only [hq]
            exact (touchSandbox_dbView st1 r.id now).trans hg1 }

theorem executeCommand_dbView (P : Provider) (st : St) (sandboxId cmd : String) :
    dbView (executeCommand P st sandboxId cmd).1 = dbView st := by
  unfold executeCommand
  rcases hg : getSandboxInstance P st sandboxId with ⟨st1, rg⟩
  have hg1 : dbView st1 = dbView st := by
    have h1 := getSandboxInstance_dbView P st sandboxId
    rw [hg] at h1
    exact h1
  rcases rg with e | u <;> exact hg1

theorem writeFile_dbView (P : Provider) (st : St) (sandboxId path content : String) :
    dbView (writeFile P st sandboxId path content).1 = dbView st := by
  unfold writeFile
  rcases hg : getSandboxInstance P st sandboxId with ⟨st1, rg⟩
  have hg1 : dbView st1 = dbView st := by
    have h1 := getSandboxInstance_dbView P st sandboxId
    rw [hg] at h1
    exact h1
  rcases rg with e | u <;> exact hg1

theorem initializeSandbox_dbView (P : Provider) (st : St) (sandboxId : String) :
    dbView (initializeSandbox P st sandboxId).1 = dbView st := by
  unfold initializeSandbox
  rcases h1 : executeCommand P st sandboxId "mkdir -p /home/user/project" with ⟨st1, r1⟩
  have hv1 : dbView st1 = dbView st := by
    have h := executeCommand_dbView P st sandboxId "mkdir -p /home/user/project"
    rw [h1] at h
    exact h
  rcases r1 with e | u
  · exact hv1
  · dsimp only
    rcases h2 : executeCommand P st1 sandboxId "mkdir -p /home/user/.agent" with ⟨st2, r2⟩
    have hv2 : dbView st2 = dbView st := by
      have h := executeCommand_dbView P st1 sandboxId "mkdir -p /home/user/.agent"
      rw [h2] at h
      exact h.trans hv1
    rcases r2 with e | u
    · exact hv2
    · dsimp only
      rcases h3 : writeFile P st2 sandboxId "/home/user/.agent/worker.js" AGENT_WORKER_SCRIPT
        with ⟨st3, r3⟩
      have hv3 : dbView st3 = dbView st := by
        have h := writeFile_dbView P st2 sandboxId "/home/user/.agent/worker.js"
          AGENT_WORKER_SCRIPT
        rw [h3] at h
        exact h.trans hv2
      rcases r3 with e | u
      · exact hv3
      · dsimp only
        rcases h4 : executeCommand P st3 sandboxId npmCheckCmd with ⟨st4, r4⟩
        have hv4 : dbView st4 = dbView st := by
          have h := executeCommand_dbView P st3 sandboxId npmCheckCmd
          rw [h4] at h
          exact h.trans hv3
        rcases r4 with e | checkResult
        · exact hv4
        · dsimp only
          split
          · rcases h5 : executeCommand P st4 sandboxId npmInstallCmd with ⟨st5, r5⟩
            have hv5 : dbView st5 = dbView st := by
              have h := executeCommand_dbView P st4 sandboxId npmInstallCmd
              rw [h5] at h
              exact h.trans hv4
            rcases r5 with e | u <;> exact hv5
          · exact hv4

/-! ## C10: stopAgent reports and clears the in-flight entry -/

/-- C10.  `stopAgent` returns `true` exactly when an in-flight entry
exists, and in that case the entry is removed at once: `isAgentRunning`
is `false` immediately afterwards and a subsequent `chat` for the project
passes the busy check (its first event is the sandbox-status event, not
the busy error).  The stopped turn itself keeps running against its
captured abort controller. -/
theorem stopAgent_clears_guard (st : St) (projectId : String) :
    ((stopAgent st projectId).1 = st.activeAgents.contains projectId)
    ∧ ((stopAgent st projectId).1 = true →
        isAgentRunning (stopAgent st projectId).2 projectId = false
        ∧ ∀ (P : Provider) (userId message : String) (abortAt : Nat → Bool) (now : Int),
            ((chat P (stopAgent st projectId).2 projectId userId message abortAt now).1).head? =
              some statusStartingEvent) := by
  by_cases h : st.activeAgents.contains projectId
  · have hstop : stopAgent st projectId =
        (true, { st with abortSignaled := mapSet projectId st.abortSignaled,
                         activeAgents := mapDelete projectId st.activeAgents }) := by
      unfold stopAgent
      rw [if_pos h]
    have hrun : isAgentRunning (stopAgent st projectId).2 projectId = false := by
      rw [hstop]
      exact mapDelete_not_mem projectId st.activeAgents
    refine ⟨by rw [hstop, h], fun _ => ⟨hrun, fun P userId message abortAt now => ?_⟩⟩
    exact chat_head_of_not_running P _ projectId userId message abortAt now hrun
  · have hstop : stopAgent st projectId = (false, st) := by
      unfold stopAgent
      rw [if_neg h]
    constructor
    · rw [hstop]
      exact (Bool.eq_false_iff.mpr h).symm
    · intro htrue
      rw [hstop] at htrue
      exact absurd htrue (by simp)

/-- Witness for C10 at a concrete in-flight store. -/
theorem stopAgent_clears_guard_witness :
    isAgentRunning (stopAgent
      ⟨["p1"], [], [], [], [], ["p1"], [], 0, 0⟩ "p1").2 "p1" = false ∧
    (stopAgent ⟨["p1"], [], [], [], [], ["p1"], [], 0, 0⟩ "p1").1 = true := by
  constructor
  · exact ((stopAgent_clears_guard ⟨["p1"], [], [], [], [], ["p1"], [], 0, 0⟩ "p1").2
      (by rfl)).1
  · rfl

/-! ## Frame and shape lemmas for the turn body -/

theorem mapDelete_mapSet (k : String) (l : List String) :
    mapDelete k (mapSet k l) = mapDelete k l := by
  unfold mapSet
  split
  · rfl
  · simp [mapDelete, List.filter_cons]

theorem chatTail_activeAgents (P : Provider) (st4 : St) (sandboxId : String) (convId : Nat)
    (message : String) (abortAt : Nat → Bool) (now : Int)
    (ev1 : List AgentEvent) (trPre : List Action) :
    ((chatTail P st4 sandboxId convId message abortAt now ev1 trPre).st).activeAgents =
      st4.activeAgents := by
  rcases hX : executeCommand P st4 sandboxId (agentCommand message) with ⟨st5, rX⟩
  have h5 : st5.activeAgents = st4.activeAgents := by
    have h := executeCommand_dbView P st4 sandboxId (agentCommand message)
    rw [hX] at h
    exact congrArg (fun t => t.1) h
  unfold chatTail
  simp only [hX]
  rcases rX with e | res
  · exact h5
  · dsimp only
    repeat' split
    all_goals exact h5

theorem chatTail_trace (P : Provider) (st4 : St) (sandboxId : String) (convId : Nat)
    (message : String) (abortAt : Nat → Bool) (now : Int)
    (ev1 : List AgentEvent) (trPre : List Action) :
    ∃ post, (chatTail P st4 sandboxId convId message abortAt now ev1 trPre).trace =
      trPre ++ [Action.execAgentCommand] ++ post := by
  rcases hX : executeCommand P st4 sandboxId (agentCommand message) with ⟨st5, rX⟩
  unfold chatTail
  simp only [hX]
  rcases rX with e | res
  · exact ⟨[], by simp⟩
  · dsimp only
    refine ⟨(if (processLines abortAt 0 res.stdoutLines Accum.ini).content ≠ "" ∨
        (processLines abortAt 0 res.stdoutLines Accum.ini).toolCalls ≠ [] then
        [Action.insertAssistantMessage] else []) ++
      ((match (processLines abortAt 0 res.stdoutLines Accum.ini).newSessionId with
        | some _ => [Action.updateSessionId]
        | none => []) ++ [Action.touchCall]), ?_⟩
    simp [List.append_assoc]

theorem chatTail_messages_mem (P : Provider) (st4 : St) (sandboxId : String) (convId : Nat)
    (message : String) (abortAt : Nat → Bool) (now : Int)
    (ev1 : List AgentEvent) (trPre : List Action) (m : MessageRow)
    (hm : m ∈ st4.messages) :
    m ∈ ((chatTail P st4 sandboxId convId message abortAt now ev1 trPre).st).messages := by
  rcases hX : executeCommand P st4 sandboxId (agentCommand message) with ⟨st5, rX⟩
  have h5 : st5.messages = st4.messages := by
    have h := executeCommand_dbView P st4 sandboxId (agentCommand message)
    rw [hX] at h
    exact congrArg (fun t => t.2.2.1) h
  unfold chatTail
  simp only [hX]
  rcases rX with e | res
  · rw [h5]
    exact hm
  · dsimp only
    repeat' split
    all_goals dsimp only [touchSandbox, updateAgentSession]
    all_goals rw [h5]
    all_goals first
      | exact List.mem_append_left _ hm
      | exact hm

theorem chatBody_activeAgents (P : Provider) (st : St) (projectId userId message : String)
    (abortAt : Nat → Bool) (now : Int) :
    ((chatBody P st projectId userId message abortAt now).st).activeAgents =
      st.activeAgents := by
  rcases hE : ensureRunning P st projectId now with ⟨st1, rE⟩
  have h1 : st1.activeAgents = st.activeAgents := by
    have h := ensureRunning_dbView P st projectId now
    rw [hE] at h
    exact congrArg (fun t => t.1) h
  unfold chatBody
  simp only [hE]
  rcases rE with e | info
  · exact h1
  · rcases hI : initializeSandbox P st1 info.id with ⟨st2, rI⟩
    have h2 : st2.activeAgents = st.activeAgents := by
      have h := initializeSandbox_dbView P st1 info.id
      rw [hI] at h
      exact (congrArg (fun t => t.1) h).trans h1
    simp only [hI]
    rcases rI with e | u
    · exact h2
    · rcases hC : st2.conversations.find? (fun c => c.projectId == projectId) with _ | c <;>
        simp only [hC] <;>
        · rw [chatTail_activeAgents]
          exact h2

/-! ## C2: the busy guard rejects without side effects and is always
released -/

/-- C2.  When a turn is in flight for the project, `chat` yields exactly
the single busy error event, records no step, and leaves the state
untouched (no sandbox operation, no conversation or message write).  When
no turn is in flight, whatever path the turn takes — success, exception or
cancellation (any `abortAt`) — the project id is absent from the guard set
at exit: the final guard set is exactly the initial one with the project
id deleted. -/
theorem chat_busy_guard (P : Provider) (st : St) (projectId userId message : String)
    (abortAt : Nat → Bool) (now : Int) :
    (isAgentRunning st projectId = true →
      chat P st projectId userId message abortAt now = ([busyEvent], [], st))
    ∧ (isAgentRunning st projectId = false →
        ((chat P st projectId userId message abortAt now).2.2).activeAgents =
          mapDelete projectId st.activeAgents
        ∧ isAgentRunning (chat P st projectId userId message abortAt now).2.2 projectId =
            false) := by
  constructor
  · intro h
    unfold chat
    rw [if_pos h]
  · intro h
    have hA := chatBody_activeAgents P
      { st with activeAgents := mapSet projectId st.activeAgents }
      projectId userId message abortAt now
    have hfinal : ((chat P st projectId userId message abortAt now).2.2).activeAgents =
        mapDelete projectId st.activeAgents := by
      unfold chat
      rw [if_neg (by simp [h])]
      dsimp only
      rw [hA]
      exact mapDelete_mapSet projectId st.activeAgents
    refine ⟨hfinal, ?_⟩
    unfold isAgentRunning
    rw [hfinal]
    exact mapDelete_not_mem projectId st.activeAgents

/-- Witness for C2: the busy store is rejected untouched; the idle store
ends with the guard released. -/
theorem chat_busy_guard_witness :
    chat (happyP [] "" 0) stBusy "p1" "u" "hi" (fun _ => false) 0 =
      ([busyEvent], [], stBusy)
    ∧ isAgentRunning (chat (happyP [] "" 0) st0 "p1" "u" "hi" (fun _ => false) 0).2.2 "p1" =
        false := by
  constructor
  · exact (chat_busy_guard (happyP [] "" 0) stBusy "p1" "u" "hi" (fun _ => false) 0).1 rfl
  · exact ((chat_busy_guard (happyP [] "" 0) st0 "p1" "u" "hi" (fun _ => false) 0).2 rfl).2

/-! ## C4: the user message is persisted strictly before the agent
invocation -/

theorem chatBody_user_message (P : Provider) (st : St) (projectId userId message : String)
    (abortAt : Nat → Bool) (now : Int)
    (hrun : Action.execAgentCommand ∈ (chatBody P st projectId userId message abortAt now).trace) :
    (∃ pre post, (chatBody P st projectId userId message abortAt now).trace =
      pre ++ [Action.insertUserMessage, Action.querySandboxRecord, Action.execAgentCommand]
        ++ post)
    ∧ ∃ convId, (⟨convId, Role.user, message, none⟩ : MessageRow) ∈
        ((chatBody P st projectId userId message abortAt now).st).messages := by
  rcases hE : ensureRunning P st projectId now with ⟨st1, rE⟩
  unfold chatBody at hrun ⊢
  simp only [hE] at hrun ⊢
  rcases rE with e | info
  · simp at hrun
  · rcases hI : initializeSandbox P st1 info.id with ⟨st2, rI⟩
    simp only [hI] at hrun ⊢
    rcases rI with e | u
    · simp at hrun
    · rcases hC : st2.conversations.find? (fun c => c.projectId == projectId) with _ | c <;>
        simp only [hC] at hrun ⊢
      · constructor
        · obtain ⟨post, hpost⟩ := chatTail_trace P _ info.id st2.nextConvId message abortAt now
            ([statusStartingEvent] ++ [statusRunningEvent info.id])
            ([Action.ensureRunningCall, Action.initSandboxCall] ++
              [Action.findConversation, Action.insertConversation] ++
              [Action.insertUserMessage, Action.querySandboxRecord])
          exact ⟨[Action.ensureRunningCall, Action.initSandboxCall,
            Action.findConversation, Action.insertConversation], post, hpost⟩
        · refine ⟨st2.nextConvId, chatTail_messages_mem P _ info.id st2.nextConvId message
            abortAt now _ _ _ ?_⟩
          exact List.mem_append_right _ (by simp)
      · constructor
        · obtain ⟨post, hpost⟩ := chatTail_trace P _ info.id c.id message abortAt now
            ([statusStartingEvent] ++ [statusRunningEvent info.id])
            ([Action.ensureRunningCall, Action.initSandboxCall] ++
              [Action.findConversation] ++
              [Action.insertUserMessage, Action.querySandboxRecord])
          exact ⟨[Action.ensureRunningCall, Action.initSandboxCall,
            Action.findConversation], post, hpost⟩
        · refine ⟨c.id, chatTail_messages_mem P _ info.id c.id message
            abortAt now _ _ _ ?_⟩
          exact List.mem_append_right _ (by simp)

/-- C4.  Whenever the agent command is invoked within a turn (in
particular whenever anything at or after the invocation fails), the step
sequence shows the user-message insert strictly before the invocation, and
the user message row — attached to the project's found-or-created
conversation — is in the persisted messages at the end of the turn. -/
theorem user_message_persisted_before_invocation (P : Provider) (st : St)
    (projectId userId message : String) (abortAt : Nat → Bool) (now : Int)
    (hrun : Action.execAgentCommand ∈ (chat P st projectId userId message abortAt now).2.1) :
    (∃ pre post, (chat P st projectId userId message abortAt now).2.1 =
      pre ++ [Action.insertUserMessage, Action.querySandboxRecord, Action.execAgentCommand]
        ++ post)
    ∧ ∃ convId, (⟨convId, Role.user, message, none⟩ : MessageRow) ∈
        ((chat P st projectId userId message abortAt now).2.2).messages := by
  by_cases hb : isAgentRunning st projectId
  · unfold chat at hrun
    rw [if_pos hb] at hrun
    simp at hrun
  · have hb' : isAgentRunning st projectId = false := Bool.eq_false_iff.mpr hb
    have hrun' : Action.execAgentCommand ∈
        (chatBody P { st with activeAgents := mapSet projectId st.activeAgents }
          projectId userId message abortAt now).trace := by
      unfold chat at hrun
      rw [if_neg (by simp [hb'])] at hrun
      exact hrun
    have h := chatBody_user_message P
      { st with activeAgents := mapSet projectId st.activeAgents }
      projectId userId message abortAt now hrun'
    unfold chat
    rw [if_neg (by simp [hb'])]
    exact h

/-- Witness for C4: a concrete happy turn whose trace contains the
invocation. -/
theorem user_message_persisted_witness :
    (∃ pre post, (chat (happyP [] "" 0) st0 "p1" "u" "hi" (fun _ => false) 0).2.1 =
      pre ++ [Action.insertUserMessage, Action.querySandboxRecord, Action.execAgentCommand]
        ++ post)
    ∧ ∃ convId, (⟨convId, Role.user, "hi", none⟩ : MessageRow) ∈
        ((chat (happyP [] "" 0) st0 "p1" "u" "hi" (fun _ => false) 0).2.2).messages := by
  exact user_message_persisted_before_invocation (happyP [] "" 0) st0 "p1" "u" "hi"
    (fun _ => false) 0 (by decide)

/-! ## The stdout line loop without cancellation -/

theorem stepEvent_events (acc : Accum) (e : AgentEvent) :
    (stepEvent acc e).events = acc.events ++ [e] := by
  unfold stepEvent
  dsimp only
  repeat' split
  all_goals rfl

theorem stepEvent_content (acc : Accum) (e : AgentEvent) :
    (stepEvent acc e).content = acc.content ++
      (if e.type = .message then
        match e.data with
        | some d => d.content.getD ""
        | none => ""
      else "") := by
  unfold stepEvent
  dsimp only
  repeat' split
  all_goals simp_all [String.append_empty]

theorem stepEvent_toolCalls (acc : Accum) (e : AgentEvent) :
    (stepEvent acc e).toolCalls = acc.toolCalls ++
      (if e.type = .toolCall then
        match e.data with
        | some d => [d]
        | none => []
      else []) := by
  unfold stepEvent
  dsimp only
  repeat' split
  all_goals simp_all

theorem stepEvent_newSessionId (acc : Accum) (e : AgentEvent) :
    (stepEvent acc e).newSessionId =
      (if e.type = .done then
        match e.data with
        | some d => jsOrNull d.sessionId
        | none => acc.newSessionId
      else acc.newSessionId) := by
  unfold stepEvent
  dsimp only
  repeat' split
  all_goals simp_all

theorem processLines_noAbort (abortAt : Nat → Bool) (habort : ∀ j, abortAt j = false)
    (lines : List Line) :
    ∀ (i : Nat) (acc : Accum),
    processLines abortAt i lines acc =
      ⟨acc.events ++ wellFormedEvents lines,
       acc.content ++ accText (wellFormedEvents lines),
       acc.toolCalls ++ toolPayloads (wellFormedEvents lines),
       lastSessionFrom acc.newSessionId (wellFormedEvents lines)⟩ := by
  induction lines with
  | nil =>
    intro i acc
    cases acc
    simp [processLines, wellFormedEvents, accText, toolPayloads, lastSessionFrom,
      String.append_empty]
  | cons l rest ih =>
    intro i acc
    cases l with
    | malformed raw =>
      rw [show processLines abortAt i (Line.malformed raw :: rest) acc =
          processLines abortAt (i + 1) rest acc from by simp [processLines, habort i]]
      rw [ih]
      simp [wellFormedEvents, List.filterMap_cons]
    | event e =>
      rw [show processLines abortAt i (Line.event e :: rest) acc =
          processLines abortAt (i + 1) rest (stepEvent acc e) from by
            simp [processLines, habort i]]
      rw [ih]
      have hW : wellFormedEvents (Line.event e :: rest) = e :: wellFormedEvents rest := by
        simp [wellFormedEvents, List.filterMap_cons]
      rw [hW]
      simp only [Accum.mk.injEq]
      refine ⟨?_, ?_, ?_, ?_⟩
      · rw [stepEvent_events, List.append_assoc]
        rfl
      · rw [stepEvent_content, String.append_assoc]
        rfl
      · rw [stepEvent_toolCalls, List.append_assoc]
        rfl
      · rw [stepEvent_newSessionId]
        rfl

theorem processLines_events_noAbort (abortAt : Nat → Bool) (habort : ∀ j, abortAt j = false)
    (lines : List Line) :
    (processLines abortAt 0 lines Accum.ini).events = wellFormedEvents lines := by
  rw [processLines_noAbort abortAt habort lines 0 Accum.ini]
  rfl

/-! ## C6: malformed stdout lines are discarded, well-formed ones are
forwarded in order -/

/-- C6.  In a non-cancelled turn, the events the client receives after the
two sandbox-status events are exactly the parsed events of the well-formed
stdout lines, in their original order: malformed lines are never surfaced
and never abort the turn. -/
theorem malformed_lines_skipped (lines : List Line) (abortAt : Nat → Bool) (now : Int)
    (habort : ∀ j, abortAt j = false) :
    (chat (happyP lines "" 0) st0 "p1" "u" "hi" abortAt now).1 =
      statusStartingEvent :: statusRunningEvent "sbx1" :: wellFormedEvents lines := by
  have hev : (chat (happyP lines "" 0) st0 "p1" "u" "hi" abortAt now).1 =
      statusStartingEvent :: statusRunningEvent "sbx1" ::
        (processLines abortAt 0 lines Accum.ini).events := rfl
  rw [hev, processLines_events_noAbort abortAt habort lines]

/-- Witness for C6: five well-formed lines and one malformed line amid
them yield exactly the five events, in order, after the status events. -/
theorem malformed_lines_skipped_witness :
    (chat (happyP fiveLines "" 0) st0 "p1" "u" "hi" (fun _ => false) 2).1 =
      [statusStartingEvent, statusRunningEvent "sbx1",
       ⟨.thinking, none⟩, toolEvent "t1", textEvent "a", toolEvent "t2", doneEvent "s5"] := by
  rw [malformed_lines_skipped fiveLines (fun _ => false) 2 (fun _ => rfl)]
  rfl

/-! ## C1: terminal events of a turn -/

/-- Counterexample to C1 as stated: a turn that completes normally with an
agent process that produced no protocol output ends the stream after the
two status events — the client-visible sequence contains no terminal event
at all, not exactly one. -/
theorem chat_terminal_counterexample :
    (chat (happyP [] "" 0) st0 "p1" "u" "hi" (fun _ => false) 3).1 =
      [statusStartingEvent, statusRunningEvent "sbx1"]
    ∧ ((chat (happyP [] "" 0) st0 "p1" "u" "hi" (fun _ => false) 3).1).filter
        (fun x => isTerminal x) = [] := by
  exact ⟨rfl, rfl⟩

/-- C1 (amended).  The stream of a turn contains exactly one terminal
event, in last position, provided the agent process honours its output
protocol — its well-formed stdout events contain exactly one terminal
event and it is the last well-formed line — the turn is not cancelled, the
command result does not trigger the stderr-derived error (stderr empty or
exit code zero), and no step throws.  Without these provisos the stream
can carry zero terminal events (see the counterexample) or several. -/
theorem chat_terminal_amended (lines : List Line) (stderrS : String) (exitC : Int)
    (abortAt : Nat → Bool) (now : Int) (e : AgentEvent)
    (habort : ∀ j, abortAt j = false)
    (hnoerr : stderrS = "" ∨ exitC = 0)
    (hterm : (wellFormedEvents lines).filter (fun x => isTerminal x) = [e])
    (hlast : (wellFormedEvents lines).getLast? = some e) :
    ((chat (happyP lines stderrS exitC) st0 "p1" "u" "hi" abortAt now).1).filter
      (fun x => isTerminal x) = [e]
    ∧ ((chat (happyP lines stderrS exitC) st0 "p1" "u" "hi" abortAt now).1).getLast? =
        some e := by
  have hev : (chat (happyP lines stderrS exitC) st0 "p1" "u" "hi" abortAt now).1 =
      (if stderrS ≠ "" ∧ exitC ≠ 0 then
        statusStartingEvent :: statusRunningEvent "sbx1" ::
          ((processLines abortAt 0 lines Accum.ini).events ++ [errEvent stderrS])
      else
        statusStartingEvent :: statusRunningEvent "sbx1" ::
          (processLines abortAt 0 lines Accum.ini).events) := rfl
  have hcond : ¬ (stderrS ≠ "" ∧ exitC ≠ 0) := by
    rcases hnoerr with h | h <;> simp [h]
  rw [hev, if_neg hcond, processLines_events_noAbort abortAt habort lines]
  have h1 : isTerminal statusStartingEvent = false := rfl
  have h2 : isTerminal (statusRunningEvent "sbx1") = false := rfl
  constructor
  · rw [List.filter_cons_of_neg (by simp [h1]), List.filter_cons_of_neg (by simp [h2])]
    exact hterm
  · have hne : wellFormedEvents lines ≠ [] := by
      intro h0
      rw [h0] at hterm
      simp at hterm
    rw [show statusStartingEvent :: statusRunningEvent "sbx1" :: wellFormedEvents lines =
      [statusStartingEvent, statusRunningEvent "sbx1"] ++ wellFormedEvents lines from rfl]
    rw [List.getLast?_append, hlast]
    rfl

/-- Witness for C1 (amended): a protocol-honouring stream whose last line
is the single `agent:done`. -/
theorem chat_terminal_amended_witness :
    ((chat (happyP scnLines "" 0) st0 "p1" "u" "hi" (fun _ => false) 4).1).filter
      (fun x => isTerminal x) = [doneEvent "sess-9"]
    ∧ ((chat (happyP scnLines "" 0) st0 "p1" "u" "hi" (fun _ => false) 4).1).getLast? =
        some (doneEvent "sess-9") := by
  exact chat_terminal_amended scnLines "" 0 (fun _ => false) 4 (doneEvent "sess-9")
    (fun _ => rfl) (Or.inl rfl) (by decide) (by decide)

/-! ## C5: persistence of the accumulated turn -/

/-- C5 (amended).  For a non-cancelled happy turn: exactly one assistant
message is persisted exactly when the accumulated text is nonempty or at
least one tool-call event was parsed; its tool-call list is the ordered
parsed tool-call payload list when nonempty (null otherwise) and its
content is the accumulated text when nonempty, the placeholder
`(Tool calls only)` otherwise; the sandbox's stored session id becomes the
session id of the last done event when that is nonempty (unchanged — still
null — otherwise); and the sandbox's activity time is touched to `now`.
When neither text nor tool calls were accumulated, only the user message
is written. -/
theorem assistant_persistence_amended (lines : List Line) (abortAt : Nat → Bool) (now : Int)
    (habort : ∀ j, abortAt j = false) :
    (chat (happyP lines "" 0) st0 "p1" "u" "hi" abortAt now).2.2 =
      { projects := ["p1"],
        sandboxes := [⟨"sbx1", "p1", .running, none,
          lastSessionFrom none (wellFormedEvents lines), now⟩],
        conversations := [⟨0, "p1"⟩],
        messages := ⟨0, .user, "hi", none⟩ ::
          (if accText (wellFormedEvents lines) ≠ "" ∨
              toolPayloads (wellFormedEvents lines) ≠ [] then
            [⟨0, .assistant,
              (if accText (wellFormedEvents lines) ≠ "" then
                accText (wellFormedEvents lines) else "(Tool calls only)"),
              (if toolPayloads (wellFormedEvents lines) ≠ [] then
                some (toolPayloads (wellFormedEvents lines)) else none)⟩]
          else []),
        cache := ["sbx1"], activeAgents := [], abortSignaled := [], nextConvId := 1,
        createCalls := 0 } := by
  have hstate : (chat (happyP lines "" 0) st0 "p1" "u" "hi" abortAt now).2.2 =
      happyFinal now (processLines abortAt 0 lines Accum.ini) := rfl
  have hacc : processLines abortAt 0 lines Accum.ini =
      ⟨wellFormedEvents lines, accText (wellFormedEvents lines),
       toolPayloads (wellFormedEvents lines),
       lastSessionFrom none (wellFormedEvents lines)⟩ := by
    rw [processLines_noAbort abortAt habort lines 0 Accum.ini]
    rfl
  rw [hstate, hacc]
  unfold happyFinal
  dsimp only
  rcases hsess : lastSessionFrom none (wellFormedEvents lines) with _ | s <;>
    by_cases hp : accText (wellFormedEvents lines) ≠ "" ∨
        toolPayloads (wellFormedEvents lines) ≠ [] <;>
      simp [hp, touchSandbox, updateAgentSession, updateRowsById, mapDelete]

/-- Counterexample to C5 as stated: a turn with one tool call and no text
persists one assistant message whose content is the fixed placeholder
`(Tool calls only)`, not the accumulated (empty) text. -/
theorem assistant_content_counterexample :
    ((chat (happyP [Line.event (toolEvent "t1")] "" 0) st0 "p1" "u" "hi"
        (fun _ => false) 4).2.2).messages =
      [⟨0, .user, "hi", none⟩,
       ⟨0, .assistant, "(Tool calls only)", some [{ raw := "t1" }]⟩]
    ∧ accText (wellFormedEvents [Line.event (toolEvent "t1")]) = ""
    ∧ "(Tool calls only)" ≠ "" := by
  refine ⟨rfl, rfl, by decide⟩

/-- Witness for C5 (amended) at the spec scenario: two tool calls, one
text chunk, then `turn-complete` — exactly one assistant message with the
two ordered tool-call payloads and the text, and the session id from the
done event. -/
theorem assistant_persistence_witness :
    (chat (happyP scnLines "" 0) st0 "p1" "u" "hi" (fun _ => false) 4).2.2 =
      { projects := ["p1"],
        sandboxes := [⟨"sbx1", "p1", .running, none, some "sess-9", 4⟩],
        conversations := [⟨0, "p1"⟩],
        messages := [⟨0, .user, "hi", none⟩,
          ⟨0, .assistant, "Hello", some [{ raw := "t1" }, { raw := "t2" }]⟩],
        cache := ["sbx1"], activeAgents := [], abortSignaled := [], nextConvId := 1,
        createCalls := 0 } := by
  have h := assistant_persistence_amended scnLines (fun _ => false) 4 (fun _ => rfl)
  rw [h]
  rfl

/-! ## C7: one idle-reaper cycle -/

theorem map_id_updateRowsById (l : List SandboxRow) (tid : String)
    (f : SandboxRow → SandboxRow) (hf : ∀ r, (f r).id = r.id) :
    (updateRowsById l tid f).map (fun r => r.id) = l.map (fun r => r.id) := by
  induction l with
  | nil => rfl
  | cons x xs ih =>
    simp only [updateRowsById, List.map_cons] at ih ⊢
    refine congrArg₂ List.cons ?_ ih
    by_cases hx : x.id = tid
    · simp [hx, hf]
    · simp [hx]

theorem pause_sandboxes_shape (P : Provider) (st : St) (tid : String) (now : Int) :
    ((pause P st tid now).1).sandboxes = st.sandboxes ∨
    ((pause P st tid now).1).sandboxes = updateRowsById st.sandboxes tid
      (fun r2 => { r2 with state := .paused, lastActiveAt := now }) := by
  rcases hf : st.sandboxes.find? (fun r0 => r0.id == tid) with _ | r
  · left
    unfold pause
    simp only [hf]
  · by_cases hs : r.state = .running
    · rcases hg : getSandboxInstance P st tid with ⟨st1, rg⟩
      have hs1 : st1.sandboxes = st.sandboxes := by
        have h1 := getSandboxInstance_sandboxes P st tid
        rw [hg] at h1
        exact h1
      unfold pause
      simp only [hf]
      rw [if_neg (by simp [hs]), hg]
      rcases rg with e | u
      · exact Or.inl hs1
      · rcases hb : P.betaPause tid with e | u1
        · exact Or.inl hs1
        · right
          simp [hs1]
    · left
      unfold pause
      simp only [hf]
      rw [if_pos (by simp [hs])]

theorem terminate_sandboxes_shape (P : Provider) (st : St) (tid : String) :
    (terminate P st tid).sandboxes = st.sandboxes ∨
    (terminate P st tid).sandboxes = updateRowsById st.sandboxes tid
      (fun r => { r with state := .terminated }) := by
  rcases hf : st.sandboxes.find? (fun r0 => r0.id == tid) with _ | r
  · left
    unfold terminate
    rw [hf]
  · right
    unfold terminate
    rw [hf]
    rcases hk : P.kill tid with e | u <;> rfl

theorem pause_find_ne (P : Provider) (st : St) (tid rid : String) (now : Int)
    (hne : tid ≠ rid) :
    (((pause P st tid now).1).sandboxes).find? (fun x => x.id == rid) =
      st.sandboxes.find? (fun x => x.id == rid) := by
  rcases pause_sandboxes_shape P st tid now with h | h
  · rw [h]
  · rw [h, find?_updateRowsById_ne st.sandboxes tid rid
      (fun r2 => { r2 with state := .paused, lastActiveAt := now }) (fun r => rfl) hne]

theorem terminate_find_ne (P : Provider) (st : St) (tid rid : String)
    (hne : tid ≠ rid) :
    ((terminate P st tid).sandboxes).find? (fun x => x.id == rid) =
      st.sandboxes.find? (fun x => x.id == rid) := by
  rcases terminate_sandboxes_shape P st tid with h | h
  · rw [h]
  · rw [h, find?_updateRowsById_ne st.sandboxes tid rid
      (fun r => { r with state := .terminated }) (fun r => rfl) hne]

theorem pause_map_id (P : Provider) (st : St) (tid : String) (now : Int) :
    (((pause P st tid now).1).sandboxes).map (fun r => r.id) =
      st.sandboxes.map (fun r => r.id) := by
  rcases pause_sandboxes_shape P st tid now with h | h
  · rw [h]
  · rw [h, map_id_updateRowsById st.sandboxes tid
      (fun r2 => { r2 with state := .paused, lastActiveAt := now }) (fun r => rfl)]

theorem pauseFold_trace (P : Provider) (now : Int) (l : List SandboxRow) :
    ∀ (s : St) (t : List String),
    (l.foldl (pauseStep P now) (s, t)).2 = t ++ l.map (fun r => r.id) := by
  induction l with
  | nil => intro s t; simp
  | cons x xs ih =>
    intro s t
    simp only [List.foldl_cons, pauseStep, List.map_cons]
    rw [ih]
    simp

theorem pauseFold_find (P : Provider) (now : Int) (rid : String) (l : List SandboxRow) :
    ∀ (s : St) (t : List String), (∀ r' ∈ l, r'.id ≠ rid) →
    ((((l.foldl (pauseStep P now) (s, t)).1).sandboxes).find? (fun x => x.id == rid)) =
      s.sandboxes.find? (fun x => x.id == rid) := by
  induction l with
  | nil => intro s t _; rfl
  | cons x xs ih =>
    intro s t hne
    simp only [List.foldl_cons, pauseStep]
    rw [ih _ _ (fun r' hr' => hne r' (List.mem_cons_of_mem x hr'))]
    exact pause_find_ne P s x.id rid now (hne x (List.mem_cons_self x xs))

theorem pauseFold_map_id (P : Provider) (now : Int) (l : List SandboxRow) :
    ∀ (s : St) (t : List String),
    ((((l.foldl (pauseStep P now) (s, t)).1).sandboxes).map (fun r => r.id)) =
      (s.sandboxes).map (fun r => r.id) := by
  induction l with
  | nil => intro s t; rfl
  | cons x xs ih =>
    intro s t
    simp only [List.foldl_cons, pauseStep]
    rw [ih]
    exact pause_map_id P s x.id now

theorem terminateFold_trace (P : Provider) (l : List SandboxRow) :
    ∀ (s : St) (t : List String),
    (l.foldl (terminateStep P) (s, t)).2 = t ++ l.map (fun r => r.id) := by
  induction l with
  | nil => intro s t; simp
  | cons x xs ih =>
    intro s t
    simp only [List.foldl_cons, terminateStep, List.map_cons]
    rw [ih]
    simp

theorem terminateFold_find (P : Provider) (rid : String) (l : List SandboxRow) :
    ∀ (s : St) (t : List String), (∀ r' ∈ l, r'.id ≠ rid) →
    ((((l.foldl (terminateStep P) (s, t)).1).sandboxes).find? (fun x => x.id == rid)) =
      s.sandboxes.find? (fun x => x.id == rid) := by
  induction l with
  | nil => intro s t _; rfl
  | cons x xs ih =>
    intro s t hne
    simp only [List.foldl_cons, terminateStep]
    rw [ih _ _ (fun r' hr' => hne r' (List.mem_cons_of_mem x hr'))]
    exact terminate_find_ne P s x.id rid (hne x (List.mem_cons_self x xs))

theorem find?_of_mem_nodup (l : List SandboxRow) (r : SandboxRow)
    (hmem : r ∈ l) (hids : (l.map (fun x => x.id)).Nodup) :
    l.find? (fun x => x.id == r.id) = some r := by
  induction l with
  | nil => cases hmem
  | cons x xs ih =>
    rcases List.mem_cons.mp hmem with h | h
    · rw [h]
      exact List.find?_cons_of_pos _ (by simp)
    · have hxney : x.id ≠ r.id := by
        intro he
        have : r.id ∈ xs.map (fun x => x.id) := List.mem_map_of_mem _ h
        rw [List.map_cons] at hids
        exact (List.nodup_cons.mp hids).1 (he ▸ this)
      rw [List.find?_cons_of_neg _ (by simp [hxney])]
      exact ih h (by rw [List.map_cons] at hids; exact (List.nodup_cons.mp hids).2)

/-- C7.  In one cleanup cycle with distinct sandbox ids and any provider
behaviour (pause failures included): every `running` sandbox whose
`lastActiveAt` is strictly before `now - idleMs` is passed to `pause`; a
`running` sandbox not strictly past the cutoff is left untouched (still
`running`); and every `paused` sandbox strictly past the hibernation
cutoff is passed to `terminate`.  Since the statement holds for every
provider, a pause or terminate failure on one sandbox never prevents the
remaining candidates from being processed. -/
theorem cleanup_cycle_thresholds (P : Provider) (st : St) (now idleMs hibMs : Int)
    (hids : ((st.sandboxes).map (fun r => r.id)).Nodup) :
    (∀ r ∈ st.sandboxes, r.state = .running → r.lastActiveAt < now - idleMs →
      r.id ∈ (runCleanup P st now idleMs hibMs).2.1)
    ∧ (∀ r ∈ st.sandboxes, r.state = .running → ¬ r.lastActiveAt < now - idleMs →
        ((runCleanup P st now idleMs hibMs).1).sandboxes.find? (fun x => x.id == r.id) =
          some r)
    ∧ (∀ r ∈ st.sandboxes, r.state = .paused → r.lastActiveAt < now - hibMs →
        r.id ∈ (runCleanup P st now idleMs hibMs).2.2) := by
  rcases hp : pauseIdleSandboxes P st now idleMs with ⟨st1, t1⟩
  rcases ht : terminateHibernatingSandboxes P st1 now hibMs with ⟨st2, t2⟩
  have hrc : runCleanup P st now idleMs hibMs = (st2, t1, t2) := by
    unfold runCleanup
    rw [hp]
    dsimp only
    rw [ht]
  have hp' : (st.sandboxes.filter (fun r =>
      r.state == SandboxState.running && decide (r.lastActiveAt < now - idleMs))).foldl
      (pauseStep P now) (st, []) = (st1, t1) := hp
  have ht' : (st1.sandboxes.filter (fun r =>
      r.state == SandboxState.paused && decide (r.lastActiveAt < now - hibMs))).foldl
      (terminateStep P) (st1, []) = (st2, t2) := ht
  have ht1 : t1 = (st.sandboxes.filter (fun r =>
      r.state == SandboxState.running && decide (r.lastActiveAt < now - idleMs))).map
      (fun r => r.id) := by
    have h := pauseFold_trace P now (st.sandboxes.filter (fun r =>
      r.state == SandboxState.running && decide (r.lastActiveAt < now - idleMs))) st []
    rw [hp'] at h
    simpa using h
  have ht2 : t2 = (st1.sandboxes.filter (fun r =>
      r.state == SandboxState.paused && decide (r.lastActiveAt < now - hibMs))).map
      (fun r => r.id) := by
    have h := terminateFold_trace P (st1.sandboxes.filter (fun r =>
      r.state == SandboxState.paused && decide (r.lastActiveAt < now - hibMs))) st1 []
    rw [ht'] at h
    simpa using h
  have hinj : ∀ a ∈ st.sandboxes, ∀ b ∈ st.sandboxes, a.id = b.id → a = b :=
    fun a ha b hb hab => List.inj_on_of_nodup_map hids ha hb hab
  -- each row untouched by phase 1 unless it was an idle running row
  have hfind1 : ∀ r ∈ st.sandboxes, ¬ (r.state = .running ∧ r.lastActiveAt < now - idleMs) →
      st1.sandboxes.find? (fun x => x.id == r.id) = some r := by
    intro r hr hnot
    have hne : ∀ r' ∈ st.sandboxes.filter (fun x =>
        x.state == SandboxState.running && decide (x.lastActiveAt < now - idleMs)),
        r'.id ≠ r.id := by
      intro r' hr'
      obtain ⟨hr'mem, hr'p⟩ := List.mem_filter.mp hr'
      intro he
      have : r' = r := hinj r' hr'mem r hr he
      rw [this] at hr'p
      simp only [Bool.and_eq_true, beq_iff_eq, decide_eq_true_eq] at hr'p
      exact hnot hr'p
    have h := pauseFold_find P now r.id (st.sandboxes.filter (fun x =>
      x.state == SandboxState.running && decide (x.lastActiveAt < now - idleMs))) st [] hne
    rw [hp'] at h
    rw [h]
    exact find?_of_mem_nodup st.sandboxes r hr hids
  have hids1 : ((st1.sandboxes).map (fun r => r.id)).Nodup := by
    have h := pauseFold_map_id P now (st.sandboxes.filter (fun x =>
      x.state == SandboxState.running && decide (x.lastActiveAt < now - idleMs))) st []
    rw [hp'] at h
    rw [h]
    exact hids
  refine ⟨?_, ?_, ?_⟩
  · intro r hr hstate hlt
    rw [hrc]
    rw [ht1]
    exact List.mem_map_of_mem _ (List.mem_filter.mpr ⟨hr, by simp [hstate, hlt]⟩)
  · intro r hr hstate hnlt
    have h1 : st1.sandboxes.find? (fun x => x.id == r.id) = some r :=
      hfind1 r hr (fun hc => hnlt hc.2)
    have hrmem1 : r ∈ st1.sandboxes := List.mem_of_find?_eq_some h1
    have hinj1 : ∀ a ∈ st1.sandboxes, ∀ b ∈ st1.sandboxes, a.id = b.id → a = b :=
      fun a ha b hb hab => List.inj_on_of_nodup_map hids1 ha hb hab
    have hne : ∀ r' ∈ st1.sandboxes.filter (fun x =>
        x.state == SandboxState.paused && decide (x.lastActiveAt < now - hibMs)),
        r'.id ≠ r.id := by
      intro r' hr'
      obtain ⟨hr'mem, hr'p⟩ := List.mem_filter.mp hr'
      intro he
      have hrr : r' = r := hinj1 r' hr'mem r hrmem1 he
      rw [hrr] at hr'p
      simp only [Bool.and_eq_true, beq_iff_eq, decide_eq_true_eq] at hr'p
      rw [hstate] at hr'p
      exact absurd hr'p.1 (by simp)
    have h2 := terminateFold_find P r.id (st1.sandboxes.filter (fun x =>
      x.state == SandboxState.paused && decide (x.lastActiveAt < now - hibMs))) st1 [] hne
    rw [ht'] at h2
    rw [hrc]
    rw [h2]
    exact h1
  · intro r hr hstate hlt
    have h1 : st1.sandboxes.find? (fun x => x.id == r.id) = some r :=
      hfind1 r hr (fun hc => by rw [hstate] at hc; exact absurd hc.1 (by simp))
    have hrmem1 : r ∈ st1.sandboxes := List.mem_of_find?_eq_some h1
    rw [hrc, ht2]
    exact List.mem_map_of_mem _ (List.mem_filter.mpr ⟨hrmem1, by simp [hstate, hlt]⟩)

/-- Witness for C7 at a concrete store: an idle running sandbox is passed
to `pause` and ends `paused`; a fresh running sandbox is left `running`; a
long-hibernating paused sandbox is passed to `terminate`. -/
theorem cleanup_cycle_thresholds_witness :
    ("idle" ∈ (runCleanup (happyP [] "" 0)
        ⟨["p1"], [⟨"idle", "p1", .running, none, none, 0⟩,
          ⟨"fresh", "p2", .running, none, none, 99⟩,
          ⟨"hib", "p3", .paused, none, none, 0⟩], [], [],
          ["idle", "fresh", "hib"], [], [], 0, 0⟩ 100 50 80).2.1)
    ∧ ((runCleanup (happyP [] "" 0)
        ⟨["p1"], [⟨"idle", "p1", .running, none, none, 0⟩,
          ⟨"fresh", "p2", .running, none, none, 99⟩,
          ⟨"hib", "p3", .paused, none, none, 0⟩], [], [],
          ["idle", "fresh", "hib"], [], [], 0, 0⟩ 100 50 80).1).sandboxes.find?
        (fun x => x.id == "fresh") = some ⟨"fresh", "p2", .running, none, none, 99⟩
    ∧ ("hib" ∈ (runCleanup (happyP [] "" 0)
        ⟨["p1"], [⟨"idle", "p1", .running, none, none, 0⟩,
          ⟨"fresh", "p2", .running, none, none, 99⟩,
          ⟨"hib", "p3", .paused, none, none, 0⟩], [], [],
          ["idle", "fresh", "hib"], [], [], 0, 0⟩ 100 50 80).2.2) := by
  have h := cleanup_cycle_thresholds (happyP [] "" 0)
    ⟨["p1"], [⟨"idle", "p1", .running, none, none, 0⟩,
      ⟨"fresh", "p2", .running, none, none, 99⟩,
      ⟨"hib", "p3", .paused, none, none, 0⟩], [], [],
      ["idle", "fresh", "hib"], [], [], 0, 0⟩ 100 50 80 (by decide)
  refine ⟨h.1 ⟨"idle", "p1", .running, none, none, 0⟩ (by decide) rfl (by decide),
    h.2.1 ⟨"fresh", "p2", .running, none, none, 99⟩ (by decide) rfl (by decide),
    h.2.2 ⟨"hib", "p3", .paused, none, none, 0⟩ (by decide) rfl (by decide)⟩

/-! ## C3: convergence of ensureRunning -/

theorem find?_append_none (p : SandboxRow → Bool) (l1 l2 : List SandboxRow)
    (h : l1.find? p = none) : (l1 ++ l2).find? p = l2.find? p := by
  induction l1 with
  | nil => rfl
  | cons x xs ih =>
    rw [List.cons_append]
    have hx : ¬ p x = true := List.find?_eq_none.mp h x (List.mem_cons_self x xs)
    rw [List.find?_cons_of_neg _ hx]
    exact ih (List.find?_eq_none.mpr fun y hy =>
      List.find?_eq_none.mp h y (List.mem_cons_of_mem x hy))

theorem find?_proj_updateRowsById (l : List SandboxRow) (sid pid : String)
    (f : SandboxRow → SandboxRow) (hf : ∀ x, (f x).projectId = x.projectId) :
    (updateRowsById l sid f).find? (fun x => x.projectId == pid) =
      (l.find? (fun x => x.projectId == pid)).map
        (fun x => if x.id = sid then f x else x) := by
  induction l with
  | nil => rfl
  | cons x xs ih =>
    simp only [updateRowsById, List.map_cons] at ih ⊢
    by_cases hx : x.projectId = pid
    · have h1 : ((fun y => y.projectId == pid) (if x.id = sid then f x else x)) = true := by
        by_cases hid : x.id = sid <;> simp [hid, hf, hx]
      rw [@List.find?_cons_of_pos _ (fun y => y.projectId == pid)
        (if x.id = sid then f x else x) _ h1,
        @List.find?_cons_of_pos _ (fun y => y.projectId == pid) x _ (by simp [hx])]
      rfl
    · have h1 : ¬ ((fun y => y.projectId == pid) (if x.id = sid then f x else x)) = true := by
        by_cases hid : x.id = sid <;> simp [hid, hf, hx]
      rw [@List.find?_cons_of_neg _ (fun y => y.projectId == pid)
        (if x.id = sid then f x else x) _ h1,
        @List.find?_cons_of_neg _ (fun y => y.projectId == pid) x _ (by simp [hx])]
      exact ih

theorem find?_proj_mapProj (l : List SandboxRow) (pid : String)
    (f : SandboxRow → SandboxRow) (hf : ∀ x, (f x).projectId = x.projectId) :
    (l.map (fun r => if r.projectId = pid then f r else r)).find?
        (fun x => x.projectId == pid) =
      (l.find? (fun x => x.projectId == pid)).map f := by
  induction l with
  | nil => rfl
  | cons x xs ih =>
    simp only [List.map_cons]
    by_cases hx : x.projectId = pid
    · rw [if_pos hx]
      rw [@List.find?_cons_of_pos _ (fun y => y.projectId == pid) (f x) _ (by simp [hf, hx]),
        @List.find?_cons_of_pos _ (fun y => y.projectId == pid) x _ (by simp [hx])]
      rfl
    · rw [if_neg hx]
      rw [@List.find?_cons_of_neg _ (fun y => y.projectId == pid) x _ (by simp [hx]),
        @List.find?_cons_of_neg _ (fun y => y.projectId == pid) x _ (by simp [hx])]
      exact ih

theorem create_ok (P : Provider) (st : St) (pid : String) (now : Int) (st' : St)
    (info : SandboxInfo) (hok : create P st pid now = (st', .ok info)) :
    info.state = .running ∧
    ∃ r', st'.sandboxes.find? (fun x => x.projectId == pid) = some r' ∧
      r'.id = info.id ∧ r'.state = .running := by
  unfold create at hok
  by_cases hproj : st.projects.contains pid = false
  · rw [if_pos hproj] at hok
    simp at hok
  · rw [if_neg hproj] at hok
    rcases hf : st.sandboxes.find? (fun r => r.projectId == pid) with _ | ex
    · simp only [hf] at hok
      unfold createFresh at hok
      rcases hcn : P.createNew st.createCalls with e | newId
      · rw [hcn] at hok
        simp at hok
      · rw [hcn] at hok
        dsimp only at hok
        simp only [hf] at hok
        have h1 : st' =
            { st with createCalls := st.createCalls + 1,
                      cache := mapSet newId st.cache,
                      sandboxes :=
                        (st.sandboxes ++ [⟨newId, pid, .running, none, none, now⟩]) } :=
          (congrArg Prod.fst hok).symm
        have h2 : info = ⟨newId, pid, .running, none, none, now⟩ := by
          have := congrArg Prod.snd hok
          injection this with h3
          exact h3.symm
        refine ⟨by rw [h2], ⟨newId, pid, .running, none, none, now⟩, ?_, by rw [h2], rfl⟩
        rw [h1]
        dsimp only
        rw [find?_append_none _ _ _ hf]
        exact List.find?_cons_of_pos _ (by simp)
    · simp only [hf] at hok
      by_cases hterm : ex.state = .terminated
      · rw [if_neg (by simp [hterm])] at hok
        unfold createFresh at hok
        rcases hcn : P.createNew st.createCalls with e | newId
        · rw [hcn] at hok
          simp at hok
        · rw [hcn] at hok
          dsimp only at hok
          simp only [hf] at hok
          have h1 : st' =
              { st with createCalls := st.createCalls + 1,
                        cache := mapSet newId st.cache,
                        sandboxes :=
                          (st.sandboxes.map fun r =>
                            if r.projectId = pid then
                              { r with id := newId, state := .running, previewUrl := none,
                                       lastActiveAt := now }
                            else r) } :=
            (congrArg Prod.fst hok).symm
          have h2 : info = ⟨newId, pid, .running, none, ex.agentSessionId, now⟩ := by
            have := congrArg Prod.snd hok
            injection this with h3
            exact h3.symm
          refine ⟨by rw [h2],
            { ex with id := newId, state := .running, previewUrl := none,
                      lastActiveAt := now }, ?_, by rw [h2], rfl⟩
          rw [h1]
          dsimp only
          rw [find?_proj_mapProj st.sandboxes pid
            (fun r => { r with id := newId, state := .running, previewUrl := none,
                               lastActiveAt := now }) (fun x => rfl), hf]
          rfl
      · rw [if_pos (by simp [hterm])] at hok
        simp at hok

theorem resume_ok (P : Provider) (st : St) (sid : String) (now : Int) (st' : St)
    (info : SandboxInfo) (hok : resume P st sid now = (st', .ok info)) :
    info.state = .running ∧ info.id = sid ∧
    st'.sandboxes = updateRowsById st.sandboxes sid
      (fun r2 => { r2 with state := .running, lastActiveAt := now }) := by
  unfold resume at hok
  rcases hf : st.sandboxes.find? (fun r => r.id == sid) with _ | q
  · simp [hf] at hok
  · simp only [hf] at hok
    by_cases hq : q.state = .paused
    · rw [if_neg (by simp [hq])] at hok
      rcases hc : P.connect sid with e | u
      · rw [hc] at hok
        simp at hok
      · rw [hc] at hok
        dsimp only at hok
        have h1 : st' =
            { st with cache := mapSet sid st.cache,
                      sandboxes :=
                        (updateRowsById st.sandboxes sid
                          (fun r2 => { r2 with state := .running, lastActiveAt := now })) } :=
          (congrArg Prod.fst hok).symm
        have h2 : info = ⟨q.id, q.projectId, .running, q.previewUrl, q.agentSessionId, now⟩ := by
          have := congrArg Prod.snd hok
          injection this with h3
          exact h3.symm
        have hqid : q.id = sid := by
          have := List.find?_some hf
          simpa using this
        refine ⟨by rw [h2], by rw [h2]; exact hqid, by rw [h1]⟩
    · rw [if_pos (by simp [hq])] at hok
      simp at hok

/-- Counterexample to C3 as stated: a record found in state `creating`
whose remote sandbox is alive makes `ensureRunning` complete normally with
a `SandboxInfo` claiming state `running`, while the durable record is left
in state `creating` — not `running`. -/
theorem ensureRunning_creating_counterexample :
    (ensureRunning (happyP [] "" 0)
        ⟨["p1"], [⟨"sbx1", "p1", .creating, none, none, 0⟩], [], [], ["sbx1"], [], [], 0, 0⟩
        "p1" 5).2 = Except.ok ⟨"sbx1", "p1", .running, none, none, 5⟩
    ∧ ((ensureRunning (happyP [] "" 0)
        ⟨["p1"], [⟨"sbx1", "p1", .creating, none, none, 0⟩], [], [], ["sbx1"], [], [], 0, 0⟩
        "p1" 5).1).sandboxes.map (fun r => r.state) = [SandboxState.creating] := by
  exact ⟨rfl, rfl⟩

/-- C3 (amended).  Whenever `ensureRunning` completes normally it returns
a `SandboxInfo` in state `running`, and the project's durable record backs
it (same id) in state `running` — except in one case: a record found in
state `creating` whose remote sandbox is alive is returned as `running`
but left durably in state `creating` (only its activity time is
refreshed).  A run that does not complete normally raises. -/
theorem ensureRunning_converges_amended (P : Provider) (st : St) (projectId : String)
    (now : Int) (st' : St) (info : SandboxInfo)
    (hok : ensureRunning P st projectId now = (st', .ok info)) :
    info.state = .running ∧
    ∃ r', st'.sandboxes.find? (fun x => x.projectId == projectId) = some r' ∧
      r'.id = info.id ∧
      (r'.state = .running ∨
        (r'.state = .creating ∧
          ∃ r0, st.sandboxes.find? (fun x => x.projectId == projectId) = some r0 ∧
            r0.state = .creating)) := by
  rcases hf0 : st.sandboxes.find? (fun x => x.projectId == projectId) with _ | r
  · unfold ensureRunning at hok
    simp only [hf0] at hok
    obtain ⟨h1, r', hr', hid, hst⟩ := create_ok P st projectId now st' info hok
    exact ⟨h1, r', hr', hid, Or.inl hst⟩
  · obtain ⟨rid, rpid, rstate, rurl, rsess, rlast⟩ := r
    unfold ensureRunning at hok
    simp only [hf0] at hok
    cases rstate with
    | terminated =>
      rw [if_pos rfl] at hok
      obtain ⟨h1, r', hr', hid, hst⟩ := create_ok P st projectId now st' info hok
      exact ⟨h1, r', hr', hid, Or.inl hst⟩
    | paused =>
      rw [if_neg (by simp), if_pos rfl] at hok
      obtain ⟨h1, hid, hsand⟩ := resume_ok P st rid now st' info hok
      refine ⟨h1, ⟨rid, rpid, .running, rurl, rsess, now⟩, ?_, by rw [hid], Or.inl rfl⟩
      rw [hsand, find?_proj_updateRowsById st.sandboxes rid projectId
        (fun r2 => { r2 with state := .running, lastActiveAt := now }) (fun x => rfl), hf0]
      simp
    | creating =>
      rw [if_neg (by simp), if_neg (by simp), if_pos (by simp)] at hok
      rcases hg : getSandboxInstance P st rid with ⟨st1, rg⟩
      have hs1 : st1.sandboxes = st.sandboxes := by
        have h := getSandboxInstance_sandboxes P st rid
        rw [hg] at h
        exact h
      rw [hg] at hok
      rcases rg with e | u
      · dsimp only at hok
        obtain ⟨h1, r', hr', hid, hst⟩ := create_ok P st1 projectId now st' info hok
        exact ⟨h1, r', hr', hid, Or.inl hst⟩
      · rcases hq : P.isRunningQ rid with e | b
        · rw [hq] at hok
          dsimp only at hok
          obtain ⟨h1, r', hr', hid, hst⟩ := create_ok P st1 projectId now st' info hok
          exact ⟨h1, r', hr', hid, Or.inl hst⟩
        · cases b
          · rw [hq] at hok
            dsimp only at hok
            rcases hcr : create P (terminate P st1 rid) projectId now with ⟨st2, rc⟩
            rw [hcr] at hok
            rcases rc with e | info2
            · dsimp only at hok
              obtain ⟨h1, r', hr', hid, hst⟩ := create_ok P st2 projectId now st' info hok
              exact ⟨h1, r', hr', hid, Or.inl hst⟩
            · dsimp only at hok
              have h1 : st' = st2 := (congrArg Prod.fst hok).symm
              have h2 : info = info2 := by
                have := congrArg Prod.snd hok
                injection this with h3
                exact h3.symm
              rw [h1, h2]
              obtain ⟨hb1, r', hr', hid, hst⟩ :=
                create_ok P (terminate P st1 rid) projectId now st2 info2 hcr
              exact ⟨hb1, r', hr', hid, Or.inl hst⟩
          · rw [hq] at hok
            dsimp only at hok
            have h1 : st' = touchSandbox st1 rid now := (congrArg Prod.fst hok).symm
            have h2 : info = ⟨rid, rpid, .running, rurl, rsess, now⟩ := by
              have := congrArg Prod.snd hok
              injection this with h3
              exact h3.symm
            refine ⟨by rw [h2], ⟨rid, rpid, .creating, rurl, rsess, now⟩, ?_, by rw [h2],
              Or.inr ⟨rfl, ⟨rid, rpid, .creating, rurl, rsess, rlast⟩, hf0, rfl⟩⟩
            rw [h1]
            unfold touchSandbox
            dsimp only
            rw [hs1, find?_proj_updateRowsById st.sandboxes rid projectId
              (fun r2 => { r2 with lastActiveAt := now }) (fun x => rfl), hf0]
            simp
    | running =>
      rw [if_neg (by simp), if_neg (by simp), if_pos (by simp)] at hok
      rcases hg : getSandboxInstance P st rid with ⟨st1, rg⟩
      have hs1 : st1.sandboxes = st.sandboxes := by
        have h := getSandboxInstance_sandboxes P st rid
        rw [hg] at h
        exact h
      rw [hg] at hok
      rcases rg with e | u
      · dsimp only at hok
        obtain ⟨h1, r', hr', hid, hst⟩ := create_ok P st1 projectId now st' info hok
        exact ⟨h1, r', hr', hid, Or.inl hst⟩
      · rcases hq : P.isRunningQ rid with e | b
        · rw [hq] at hok
          dsimp only at hok
          obtain ⟨h1, r', hr', hid, hst⟩ := create_ok P st1 projectId now st' info hok
          exact ⟨h1, r', hr', hid, Or.inl hst⟩
        · cases b
          · rw [hq] at hok
            dsimp only at hok
            rcases hcr : create P (terminate P st1 rid) projectId now with ⟨st2, rc⟩
            rw [hcr] at hok
            rcases rc with e | info2
            · dsimp only at hok
              obtain ⟨h1, r', hr', hid, hst⟩ := create_ok P st2 projectId now st' info hok
              exact ⟨h1, r', hr', hid, Or.inl hst⟩
            · dsimp only at hok
              have h1 : st' = st2 := (congrArg Prod.fst hok).symm
              have h2 : info = info2 := by
                have := congrArg Prod.snd hok
                injection this with h3
                exact h3.symm
              rw [h1, h2]
              obtain ⟨hb1, r', hr', hid, hst⟩ :=
                create_ok P (terminate P st1 rid) projectId now st2 info2 hcr
              exact ⟨hb1, r', hr', hid, Or.inl hst⟩
          · rw [hq] at hok
            dsimp only at hok
            have h1 : st' = touchSandbox st1 rid now := (congrArg Prod.fst hok).symm
            have h2 : info = ⟨rid, rpid, .running, rurl, rsess, now⟩ := by
              have := congrArg Prod.snd hok
              injection this with h3
              exact h3.symm
            refine ⟨by rw [h2], ⟨rid, rpid, .running, rurl, rsess, now⟩, ?_, by rw [h2],
              Or.inl rfl⟩
            rw [h1]
            unfold touchSandbox
            dsimp only
            rw [hs1, find?_proj_updateRowsById st.sandboxes rid projectId
              (fun r2 => { r2 with lastActiveAt := now }) (fun x => rfl), hf0]
            simp

/-- Witness for C3 (amended): resuming a paused record converges to a
`running` info backed by a `running` row. -/
theorem ensureRunning_converges_witness :
    (⟨"sbx1", "p1", .running, none, none, 7⟩ : SandboxInfo).state = .running ∧
    ∃ r', (⟨["p1"], [⟨"sbx1", "p1", .running, none, none, 7⟩], [], [], ["sbx1"], [], [],
        0, 0⟩ : St).sandboxes.find? (fun x => x.projectId == "p1") = some r' ∧
      r'.id = (⟨"sbx1", "p1", .running, none, none, 7⟩ : SandboxInfo).id ∧
      (r'.state = .running ∨
        (r'.state = .creating ∧
          ∃ r0, (⟨["p1"], [⟨"sbx1", "p1", .paused, none, none, 0⟩], [], [], [], [], [],
              0, 0⟩ : St).sandboxes.find? (fun x => x.projectId == "p1") = some r0 ∧
            r0.state = .creating)) := by
  exact ensureRunning_converges_amended (happyP [] "" 0)
    ⟨["p1"], [⟨"sbx1", "p1", .paused, none, none, 0⟩], [], [], [], [], [], 0, 0⟩ "p1" 7
    ⟨["p1"], [⟨"sbx1", "p1", .running, none, none, 7⟩], [], [], ["sbx1"], [], [], 0, 0⟩
    ⟨"sbx1", "p1", .running, none, none, 7⟩ rfl

end Mata
